import Mathlib

/-!
# Verification of the imgpipel image-pipeline core

A shallow embedding, in Lean 4, of the core logic of the `imgpipel` CLI
(`src/lib/metadata.ts`, `src/lib/process.ts` and the report-reconciling
variant of `saveMetadataReport`), together with proofs settling the
frozen claims C1-C10 about its specification.

Modelling conventions:

* JavaScript strings are Lean `String`s manipulated through their
  underlying `List Char`.  String `.length` is modelled as codepoint
  count (JS counts UTF-16 units; the two agree on all characters of the
  Basic Multilingual Plane, which covers every input the claims touch).
* JS objects used as string-keyed maps (`Record<string, T>`) are
  insertion-ordered association lists; property assignment updates an
  existing key in place and appends a fresh key, as JS does.
* `Date` values are epoch milliseconds (`Int`).  `new Date(string)` is
  modelled by `jsDateParse`, which implements the ECMAScript Date Time
  String Format for the strings `toDate` actually constructs
  (`YYYY-MM-DDTHH:MM:SS` followed by an arbitrary suffix).  The host
  timezone, used by the format when no UTC offset is present, is a
  parameter `tz` (milliseconds east of UTC), a fixed-offset
  simplification of real timezone rules; no claim exercises it.
* Fallible code returns `Except String`/`Option`; `console.warn` output
  relevant to the claims is returned alongside results.
* External subprocesses (magick, cjpegli, exiftool) and the filesystem
  are parameters of `processOne`: the tools are arbitrary
  `FS → Except String FS` transformers, the filesystem an association
  list from path to file bytes, and the effect trace is reified as a
  `List Eff`.
-/

namespace Imgpipel

/-! ## Association lists modelling JS objects -/

/-- JS property assignment `m[k] = v`: update in place if the key is
present (keeping its position), append otherwise.  (Keys are unique in
every object the program builds, so replacing the first occurrence is
exact.) -/
def updateAssoc {α : Type} : List (String × α) → String → α → List (String × α)
  | [], k, v => [(k, v)]
  | p :: rest, k, v => if p.1 = k then (k, v) :: rest else p :: updateAssoc rest k v

/-- JS property read `m[k]` (first binding wins; keys are unique in every
object the program builds). -/
def lookupA {α : Type} : List (String × α) → String → Option α
  | [], _ => none
  | p :: rest, k => if p.1 = k then some p.2 else lookupA rest k

theorem lookupA_nil {α : Type} (k : String) : lookupA ([] : List (String × α)) k = none := rfl

theorem lookupA_updateAssoc_self {α : Type} (m : List (String × α)) (k : String) (v : α) :
    lookupA (updateAssoc m k v) k = some v := by
  induction m with
  | nil => simp [updateAssoc, lookupA]
  | cons p rest ih =>
    by_cases hp : p.1 = k
    · simp [updateAssoc, lookupA, hp]
    · simp [updateAssoc, lookupA, hp, ih]

theorem lookupA_updateAssoc_other {α : Type} (m : List (String × α)) (k k' : String) (v : α)
    (hne : k' ≠ k) : lookupA (updateAssoc m k' v) k = lookupA m k := by
  induction m with
  | nil => simp [updateAssoc, lookupA, hne]
  | cons p rest ih =>
    by_cases hp : p.1 = k'
    · simp [updateAssoc, lookupA, hp, hne]
    · by_cases hpk : p.1 = k
      · simp [updateAssoc, lookupA, hp, hpk, Ne.symm hne]
      · simp [updateAssoc, lookupA, hp, hpk, ih]

/-! ## JS `String.prototype.split("\n")` -/

/-- JS `raw.split("\n")` on the character level. -/
def splitLines : List Char → List (List Char)
  | [] => [[]]
  | c :: rest =>
    if c = '\n' then [] :: splitLines rest
    else
      match splitLines rest with
      | [] => [[c]]
      | l :: ls => (c :: l) :: ls

theorem splitLines_ne_nil (l : List Char) : splitLines l ≠ [] := by
  induction l with
  | nil => simp [splitLines]
  | cons c rest ih =>
    simp only [splitLines]
    split
    · simp
    · split
      · simp
      · simp

theorem splitLines_no_newline (l : List Char) (h : '\n' ∉ l) : splitLines l = [l] := by
  induction l with
  | nil => rfl
  | cons c rest ih =>
    simp only [List.mem_cons, not_or] at h
    have hc : ¬ c = '\n' := fun hh => h.1 hh.symm
    simp [splitLines, hc, ih h.2]

theorem splitLines_append (a b : List Char) (ha : '\n' ∉ a) :
    splitLines (a ++ '\n' :: b) = a :: splitLines b := by
  induction a with
  | nil => simp [splitLines]
  | cons c rest ih =>
    simp only [List.mem_cons, not_or] at ha
    have hc : ¬ c = '\n' := fun hh => ha.1 hh.symm
    simp only [List.cons_append, splitLines, hc, if_false, List.append_eq]
    rw [ih ha.2]

/-! ## The `metadataRe` line pattern

`metadata.ts` line 167: the regex `^([\w-_\s]+)\s*:\s(.+)$` (no flags).
Without the `u` flag the class `[\w-_\s]` is word characters, a literal
hyphen, an underscore (already in `\w`) and whitespace.  Because `:` is
not in the class and the run of class characters before the colon is
matched greedily, a line matches exactly when it consists of a nonempty
run of class characters, immediately followed by `:`, one whitespace
character, and a nonempty remainder of non-line-terminator characters;
group 1 is the full greedy run (trailing whitespace included) and
group 2 the remainder. -/

/-- JS `\w`: ASCII letter, ASCII digit or underscore. -/
def isWordChar (c : Char) : Bool :=
  ('a' ≤ c && c ≤ 'z') || ('A' ≤ c && c ≤ 'Z') || ('0' ≤ c && c ≤ '9') || c = '_'

/-- JS `\s` (the characters that can occur in this program's inputs):
space, tab, newline, carriage return, vertical tab, form feed, NBSP and
the BOM. -/
def isJsSpace (c : Char) : Bool :=
  c = ' ' || c = '\t' || c = '\n' || c = '\r' || c = '\x0b' || c = '\x0c' ||
  c = ' ' || c = '﻿'

/-- JS `.` (no `s` flag): anything but a line terminator. -/
def isDotChar (c : Char) : Bool :=
  !(c = '\n' || c = '\r' || c = ' ' || c = ' ')

/-- Membership in the class `[\w-_\s]`. -/
def isKeyChar (c : Char) : Bool := isWordChar c || c = '-' || isJsSpace c

/-- `line.match(metadataRe)`, returning (group 1, group 2). -/
def matchMetadataLine (line : List Char) : Option (List Char × List Char) :=
  match line.drop (line.takeWhile isKeyChar).length with
  | ':' :: c :: v =>
    if line.takeWhile isKeyChar ≠ [] && isJsSpace c && v ≠ [] && v.all isDotChar then
      some (line.takeWhile isKeyChar, v)
    else none
  | _ => none

/-- `key.replaceAll(/[ -]/g, '')` (metadata.ts line 258): the class
`[ -]` holds exactly the space and the hyphen, so only those two
characters are removed. -/
def normalizeKeyChars (k : List Char) : List Char :=
  k.filter (fun c => !(c = ' ' || c = '-'))

/-- The normalization the SPEC describes ("stripping spaces, hyphens,
and underscores"): stated for comparison with `normalizeKeyChars`, the
one the code performs. -/
def specNormalizeKeyChars (k : List Char) : List Char :=
  k.filter (fun c => !(c = ' ' || c = '-' || c = '_'))

/-- The key/value-gathering loop of `parseExiftoolMetadata`
(metadata.ts lines 252-260): split on newlines, keep lines matching
`metadataRe`, store each value under the normalized key. -/
def parseKV (raw : String) : List (String × String) :=
  (splitLines raw.data).foldl
    (fun m line =>
      match matchMetadataLine line with
      | some (k, v) => updateAssoc m (String.mk (normalizeKeyChars k)) (String.mk v)
      | none => m)
    []

theorem matchMetadataLine_value_ne_nil {line k v : List Char}
    (h : matchMetadataLine line = some (k, v)) : v ≠ [] := by
  unfold matchMetadataLine at h
  split at h
  · split at h
    · rename_i hcond
      simp only [Bool.and_eq_true, decide_eq_true_eq, ne_eq] at hcond
      cases h
      exact hcond.1.2
    · exact absurd h (by simp)
  · exact absurd h (by simp)

/-- Every value stored by the key/value loop is nonempty (group 2 of
the regex is `(.+)`). -/
theorem parseKV_values_ne_empty (raw : String) :
    ∀ p ∈ parseKV raw, p.2 ≠ "" := by
  unfold parseKV
  generalize splitLines raw.data = lines
  have base : ∀ p ∈ ([] : List (String × String)), p.2 ≠ "" := by simp
  generalize hm : ([] : List (String × String)) = m at base
  clear hm
  induction lines generalizing m with
  | nil => simpa using base
  | cons line rest ih =>
    simp only [List.foldl_cons]
    apply ih
    cases hl : matchMetadataLine line with
    | none => simpa [hl] using base
    | some kv =>
      obtain ⟨k, v⟩ := kv
      simp only [hl]
      have hv : v ≠ [] := matchMetadataLine_value_ne_nil hl
      -- membership in `updateAssoc` is membership in `m` or the new pair
      intro p hp
      have : p ∈ m ∨ p = (String.mk (normalizeKeyChars k), String.mk v) := by
        clear base
        induction m with
        | nil => simpa [updateAssoc] using hp
        | cons q qrest ihq =>
          by_cases hq : q.1 = String.mk (normalizeKeyChars k)
          · simp only [updateAssoc, hq, if_true] at hp
            rcases List.mem_cons.mp hp with h1 | h1
            · right; rw [h1]
            · left; exact List.mem_cons_of_mem _ h1
          · simp only [updateAssoc, hq, if_false] at hp
            rcases List.mem_cons.mp hp with h1 | h1
            · left; rw [h1]; exact List.mem_cons_self _ _
            · rcases ihq h1 with h2 | h2
              · left; exact List.mem_cons_of_mem _ h2
              · right; exact h2
      rcases this with h1 | h1
      · exact base p h1
      · rw [h1]
        simpa [String.ext_iff] using hv

/-! ## The zod schema `metadataSchema`

All fields are optional strings except `ImageHeight`/`ImageWidth`,
declared `z.coerce.number().int()`: the value is coerced with JS
`Number(...)` and must be an integer (a missing value coerces to `NaN`
and fails, so both are effectively required).  Unknown keys are
dropped, as zod does by default. -/

def charDigit (c : Char) : ℕ := c.toNat - '0'.toNat

/-- Decimal value of a digit string. -/
def digitsToNat (l : List Char) : ℕ := l.foldl (fun acc c => acc * 10 + charDigit c) 0

/-- JS `Number(s)` restricted to the shapes this program meets,
keeping only integer results (`z.coerce.number().int()` rejects
everything else): optional whitespace trim, optional sign, decimal
digits with an optional all-zero fraction.  The empty (or all-blank)
string coerces to 0, as `Number("")` does.  Exotic numeric syntax
(hex, exponents) is out of scope of the model. -/
def jsNumberInt (s : String) : Option Int :=
  match (s.data.dropWhile isJsSpace).reverse.dropWhile isJsSpace |>.reverse with
  | [] => some 0
  | l =>
    match (if l.head? = some '-' || l.head? = some '+' then l.tail else l) with
    | [] => none
    | body =>
      match body.takeWhile Char.isDigit, body.dropWhile Char.isDigit with
      | [], _ => none
      | ds, [] => some (if l.head? = some '-' then -(digitsToNat ds : Int) else (digitsToNat ds : Int))
      | ds, '.' :: fs =>
        if fs.all (fun c => c = '0') then
          some (if l.head? = some '-' then -(digitsToNat ds : Int) else (digitsToNat ds : Int))
        else none
      | _, _ => none

/-- The typed record produced by `metadataSchema.safeParse`. -/
structure SchemaData where
  CameraProfile : Option String
  CaptionAbstract : Option String
  DateTimeOriginal : Option String
  ExposureTime : Option String
  FNumber : Option String
  FocalLength : Option String
  ISO : Option String
  ImageHeight : Int
  ImageWidth : Int
  LensInfo : Option String
  LensMake : Option String
  LensModel : Option String
  Location : Option String
  Make : Option String
  Model : Option String
  ObjectName : Option String
  OffsetTimeOriginal : Option String
  Sublocation : Option String
deriving DecidableEq, Repr

/-- `metadataSchema.safeParse(kv)` (metadata.ts lines 191-210, 264). -/
def metadataSchemaParse (kv : List (String × String)) : Option SchemaData :=
  match lookupA kv "ImageHeight", lookupA kv "ImageWidth" with
  | some hs, some ws =>
    match jsNumberInt hs, jsNumberInt ws with
    | some h, some w =>
      some {
        CameraProfile := lookupA kv "CameraProfile"
        CaptionAbstract := lookupA kv "CaptionAbstract"
        DateTimeOriginal := lookupA kv "DateTimeOriginal"
        ExposureTime := lookupA kv "ExposureTime"
        FNumber := lookupA kv "FNumber"
        FocalLength := lookupA kv "FocalLength"
        ISO := lookupA kv "ISO"
        ImageHeight := h
        ImageWidth := w
        LensInfo := lookupA kv "LensInfo"
        LensMake := lookupA kv "LensMake"
        LensModel := lookupA kv "LensModel"
        Location := lookupA kv "Location"
        Make := lookupA kv "Make"
        Model := lookupA kv "Model"
        ObjectName := lookupA kv "ObjectName"
        OffsetTimeOriginal := lookupA kv "OffsetTimeOriginal"
        Sublocation := lookupA kv "Sublocation" }
    | _, _ => none
  | _, _ => none

/-! ## Dates: `toDate` and the `new Date(iso8601)` model

`toDate` (metadata.ts lines 218-242) matches its first argument against
`^(\d{4}):(\d{2}):(\d{2}) (\d{2}):(\d{2}):(\d{2})$`, composes an
ISO-8601 string from the matched digit substrings and the offset
argument (after mapping the sentinel `"00:00"` to `"Z"`), and hands it
to `new Date(...)`.  `jsDateParse` models `new Date` on strings of that
shape via the ECMAScript Date Time String Format: the 19-character
date-time, optional `.sss` milliseconds, then `Z`, `±HH:mm`, or nothing
(nothing = host local time, the `tz` parameter). -/

/-- The match of `^(\d{4}):(\d{2}):(\d{2}) (\d{2}):(\d{2}):(\d{2})$`,
returning the six digit substrings. -/
def dtoMatch (s : String) :
    Option (List Char × List Char × List Char × List Char × List Char × List Char) :=
  match s.data with
  | [y1, y2, y3, y4, c1, o1, o2, c2, d1, d2, sp, h1, h2, c3, i1, i2, c4, s1, s2] =>
    if [y1, y2, y3, y4, o1, o2, d1, d2, h1, h2, i1, i2, s1, s2].all Char.isDigit &&
        c1 = ':' && c2 = ':' && sp = ' ' && c3 = ':' && c4 = ':' then
      some ([y1, y2, y3, y4], [o1, o2], [d1, d2], [h1, h2], [i1, i2], [s1, s2])
    else none
  | _ => none

/-- Proleptic-Gregorian leap year. -/
def isLeapYear (y : ℕ) : Bool := (y % 4 = 0 && y % 100 ≠ 0) || y % 400 = 0

def daysInMonth (y m : ℕ) : ℕ :=
  if m = 2 then (if isLeapYear y then 29 else 28)
  else if m = 4 || m = 6 || m = 9 || m = 11 then 30
  else 31

/-- Days since 0000-03-01-based epoch (valid for `y ≥ 1`), following the
standard civil-calendar day count. -/
def natDaysFromCivil (y m d : ℕ) : ℕ :=
  let yAdj := if m ≤ 2 then y - 1 else y
  let era := yAdj / 400
  let yoe := yAdj % 400
  let mp := (m + 9) % 12
  let doy := (153 * mp + 2) / 5 + (d - 1)
  let doe := yoe * 365 + yoe / 4 - yoe / 100 + doy
  era * 146097 + doe

/-- Days from 1970-01-01 to the civil date y-m-d (years 0-9999). -/
def daysSinceEpoch (y m d : ℕ) : Int :=
  (natDaysFromCivil (y + 400) m d : Int) - 146097 - 719468

/-- Epoch milliseconds of y-m-d h:mi:s.ms read as UTC. -/
def epochMillis (y m d h mi s ms : ℕ) : Int :=
  daysSinceEpoch y m d * 86400000 + ((h * 3600000 + mi * 60000 + s * 1000 + ms : ℕ) : Int)

/-- Range check of the ECMAScript Date Time String Format fields
(`24:00:00.000` is the one permitted hour-24 time). -/
def dateFieldsOK (y mo d h mi s ms : ℕ) : Bool :=
  (1 ≤ mo && mo ≤ 12) && (1 ≤ d && d ≤ daysInMonth y mo) &&
    ((h ≤ 23 && mi ≤ 59 && s ≤ 59) || (h = 24 && mi = 0 && s = 0 && ms = 0))

/-- Offset suffix of the format: `Z`, `±HH:mm`, or absent (local time). -/
inductive OffSpec where
  | utc : OffSpec
  | fixed : Int → OffSpec
  | localTime : OffSpec
deriving DecidableEq, Repr

/-- Optional `.sss` milliseconds, returning the remainder. -/
def parseMillisTail : List Char → ℕ × List Char
  | '.' :: a :: b :: c :: rest =>
    if a.isDigit && b.isDigit && c.isDigit then (digitsToNat [a, b, c], rest)
    else (0, '.' :: a :: b :: c :: rest)
  | rest => (0, rest)

def parseOffsetPart : List Char → Option OffSpec
  | [] => some .localTime
  | ['Z'] => some .utc
  | [si, a, b, co, c, d] =>
    if (si = '+' || si = '-') && a.isDigit && b.isDigit && co = ':' && c.isDigit && d.isDigit &&
        digitsToNat [a, b] ≤ 23 && digitsToNat [c, d] ≤ 59 then
      some (.fixed ((if si = '-' then -1 else 1) *
        ((digitsToNat [a, b] * 3600000 + digitsToNat [c, d] * 60000 : ℕ) : Int)))
    else none
  | _ => none

/-- `new Date(s)` for strings of the shape `toDate` constructs,
returning epoch milliseconds (`none` = Invalid Date). -/
def jsDateParse (tz : Int) (l : List Char) : Option Int :=
  match l with
  | y1 :: y2 :: y3 :: y4 :: g1 :: o1 :: o2 :: g2 :: d1 :: d2 :: gt :: h1 :: h2 :: g3 ::
      i1 :: i2 :: g4 :: s1 :: s2 :: rest =>
    if [y1, y2, y3, y4, o1, o2, d1, d2, h1, h2, i1, i2, s1, s2].all Char.isDigit &&
        g1 = '-' && g2 = '-' && gt = 'T' && g3 = ':' && g4 = ':' then
      match parseMillisTail rest with
      | (ms, rest2) =>
        match parseOffsetPart rest2 with
        | none => none
        | some off =>
          if dateFieldsOK (digitsToNat [y1, y2, y3, y4]) (digitsToNat [o1, o2])
              (digitsToNat [d1, d2]) (digitsToNat [h1, h2]) (digitsToNat [i1, i2])
              (digitsToNat [s1, s2]) ms then
            some (epochMillis (digitsToNat [y1, y2, y3, y4]) (digitsToNat [o1, o2])
                (digitsToNat [d1, d2]) (digitsToNat [h1, h2]) (digitsToNat [i1, i2])
                (digitsToNat [s1, s2]) ms -
              match off with
              | .utc => 0
              | .fixed k => k
              | .localTime => tz)
          else none
    else none
  | _ => none

/-- The ISO-8601 composition `${year}-${month}-${day}T${hour}:${minute}:${second}${ot}`. -/
def composeIso (y mo d h mi s : List Char) (ot : String) : List Char :=
  y ++ '-' :: mo ++ '-' :: d ++ 'T' :: h ++ ':' :: mi ++ ':' :: s ++ ot.data

/-- Successful result of `toDate`: the `Date` (epoch ms) and the local
wall-clock tuple. -/
structure ToDateOk where
  date : Int
  localDate : ℕ × ℕ × ℕ × ℕ × ℕ × ℕ
deriving DecidableEq, Repr

/-- `toDate` (metadata.ts lines 218-242).  `tz` is the host timezone
offset in milliseconds (used by `new Date` only when the composed
string carries no offset); `oto` defaults to `"Z"` as in the source. -/
def toDate (tz : Int) (dto : String) (oto : String := "Z") : Except String ToDateOk :=
  match dtoMatch dto with
  | none => .error "Could not parse DateTimeOriginal field"
  | some (y, mo, d, h, mi, s) =>
    match jsDateParse tz (composeIso y mo d h mi s (if oto = "00:00" then "Z" else oto)) with
    | none => .error "Invalid date"
    | some ep =>
      .ok ⟨ep, (digitsToNat y, digitsToNat mo, digitsToNat d,
                digitsToNat h, digitsToNat mi, digitsToNat s)⟩

/-- The offset strings the claims call "well-formed": `Z` or `±HH:mm`
in range; `offsetVal` is the offset in milliseconds. -/
def offsetVal (off : String) : Option Int :=
  match parseOffsetPart off.data with
  | some .utc => some 0
  | some (.fixed k) => some k
  | _ => none

/-! ## `parseExiftoolMetadata` -/

/-- JS truthiness of a possibly-absent string (`undefined` and `""`
are falsy). -/
def truthy : Option String → Bool
  | none => false
  | some s => s ≠ ""

/-- The `Metadata` record (metadata.ts lines 123-140).  `date` is epoch
milliseconds; `focalLength` is `parseFloat`'s result, `some none`
standing for `NaN`. -/
structure Metadata where
  cameraMake : Option String
  cameraModel : Option String
  cameraProfile : Option String
  date : Option Int
  description : Option String
  exposureTime : Option String
  fNumber : Option String
  focalLength : Option (Option ℚ)
  height : Int
  iso : Option String
  lensMake : Option String
  lensModel : Option String
  localDate : Option (ℕ × ℕ × ℕ × ℕ × ℕ × ℕ)
  location : Option String
  title : Option String
  width : Int
deriving DecidableEq, Repr

/-- JS `Number.parseFloat` on a string drawn from `[\d.]+` characters
(`none` = NaN). -/
def jsParseFloat (l : List Char) : Option ℚ :=
  match l.takeWhile Char.isDigit, l.dropWhile Char.isDigit with
  | [], '.' :: rest =>
    match rest.takeWhile Char.isDigit with
    | [] => none
    | fs => some (mkRat (digitsToNat fs) (10 ^ fs.length))
  | [], _ => none
  | ds, '.' :: rest =>
    some (mkRat (digitsToNat ds * 10 ^ (rest.takeWhile Char.isDigit).length +
                 digitsToNat (rest.takeWhile Char.isDigit))
                (10 ^ (rest.takeWhile Char.isDigit).length))
  | ds, _ => some (mkRat (digitsToNat ds) 1)

/-- The match of `/^([\d.]+) mm/`: a nonempty greedy run of digits and
dots, immediately followed by `" mm"`. -/
def focalLengthMatch (l : List Char) : Option (List Char) :=
  match l.drop (l.takeWhile (fun c => c.isDigit || c = '.')).length with
  | ' ' :: 'm' :: 'm' :: _ =>
    if l.takeWhile (fun c => c.isDigit || c = '.') ≠ [] then
      some (l.takeWhile (fun c => c.isDigit || c = '.'))
    else none
  | _ => none

/-- The location disambiguation (metadata.ts lines 280-283):
`data.Location || data.Sublocation`, overridden by `Sublocation` when
both are truthy and it is strictly longer. -/
def jsLocation (loc subloc : Option String) : Option String :=
  if truthy loc && truthy subloc &&
      ((subloc.getD "").length > (loc.getD "").length) then subloc
  else if truthy loc then loc else subloc

/-- The location rule as the CLAIM words it: with both present take the
textually longer (Location on ties), with one present take it, else
absent.  Stated for comparison with `jsLocation`. -/
def claimLocation : Option String → Option String → Option String
  | some l, some s => some (if l.length < s.length then s else l)
  | some l, none => some l
  | none, some s => some s
  | none, none => none

/-- The date/localDate computation plus warning (metadata.ts lines
268-278). -/
def dateOfData (tz : Int) (data : SchemaData) :
    Option Int × Option (ℕ × ℕ × ℕ × ℕ × ℕ × ℕ) × List String :=
  if truthy data.DateTimeOriginal then
    match toDate tz (data.DateTimeOriginal.getD "") (data.OffsetTimeOriginal.getD "Z") with
    | .ok r => (some r.date, some r.localDate, [])
    | .error e =>
      (none, none,
        ["Error parsing date from " ++ data.DateTimeOriginal.getD "" ++ ", " ++
          (match data.OffsetTimeOriginal with | some s => s | none => "undefined") ++ ": " ++ e])
  else (none, none, [])

/-- `parseExiftoolMetadata` (metadata.ts lines 249-310).  The `.ok`
payload carries the metadata together with the `console.warn` lines the
call emits.  The zod failure message (interpolated from
`result.error.message`) is summarized by a fixed marker, as no caller
inspects it. -/
def parseExiftoolMetadata (tz : Int) (raw : String) :
    Except String (Metadata × List String) :=
  match parseKV raw with
  | [] => .error "Could not parse metadata"
  | kv =>
    match metadataSchemaParse kv with
    | none => .error "Failed to validate metadata: <zod issues>"
    | some data =>
      match dateOfData tz data with
      | (date, localDate, warns) =>
        .ok ({ cameraMake := data.Make
               cameraModel := data.Model
               cameraProfile := data.CameraProfile
               date := date
               description := data.CaptionAbstract
               exposureTime := data.ExposureTime
               fNumber := data.FNumber
               focalLength :=
                 if truthy data.FocalLength then
                   match focalLengthMatch (data.FocalLength.getD "").data with
                   | some g => some (jsParseFloat g)
                   | none => none
                 else none
               height := data.ImageHeight
               iso := data.ISO
               lensMake := data.LensMake
               lensModel := data.LensModel
               localDate := localDate
               location := jsLocation data.Location data.Sublocation
               title := data.ObjectName
               width := data.ImageWidth }, warns)

/-! ## JSON values and the npm `deepmerge` package (v4, default options)

`deepmerge(target, source)`: values that are not plain objects or
arrays are not mergeable and a mergeable source replaces a
differently-shaped target; arrays concatenate (target then source);
objects merge key-wise — the destination starts as a clone of the
target, then every source key is assigned over it, recursing when the
source value is mergeable and the key exists on the target, otherwise
taking the source value.  So the SOURCE (the second argument) wins on
conflicts. -/

inductive Json where
  | str : String → Json
  | num : ℚ → Json
  | bool : Bool → Json
  | null : Json
  | arr : List Json → Json
  | obj : List (String × Json) → Json

/-- `isMergeableObject`: plain object or array. -/
def isMergeableJ : Json → Bool
  | .obj _ => true
  | .arr _ => true
  | _ => false

/-- `deepmerge(t, s)` (npm deepmerge v4, default options).  The
`attach` only carries the membership proof used for termination. -/
def deepmergeD : Json → Json → Json
  | t, s =>
    match t, s with
    | .obj tf, .obj sf =>
      .obj (sf.attach.foldl
        (fun dest q =>
          updateAssoc dest q.1.1
            (match lookupA tf q.1.1 with
             | some tv => if isMergeableJ q.1.2 then deepmergeD tv q.1.2 else q.1.2
             | none => q.1.2))
        tf)
    | .arr ts, .arr ss => .arr (ts ++ ss)
    | _, .arr ss => .arr ss
    | _, .obj sf => .obj sf
    | _, s => s
termination_by t s => sizeOf s
decreasing_by
  have h1 := List.sizeOf_lt_of_mem q.2
  obtain ⟨⟨a, b⟩, hq⟩ := q
  simp_all
  omega

/-- The merged value assigned for a key present on both objects. -/
def mergeEntry (tv sv : Json) : Json :=
  if isMergeableJ sv then deepmergeD tv sv else sv

/-- One assignment of the object-merge loop: source entry `p` is
assigned over `dest`, recursing when the source value is mergeable and
the key exists on the (original) target `tf`. -/
def mergeStep (tf : List (String × Json)) (dest : List (String × Json)) (p : String × Json) :
    List (String × Json) :=
  updateAssoc dest p.1
    (match lookupA tf p.1 with
     | some tv => mergeEntry tv p.2
     | none => p.2)

/-- One-step equation for `deepmergeD` on two objects, free of
`attach`. -/
theorem deepmergeD_obj_obj (tf sf : List (String × Json)) :
    deepmergeD (.obj tf) (.obj sf) = .obj (sf.foldl (mergeStep tf) tf) := by
  rw [deepmergeD]
  congr 1
  exact List.foldl_attach sf (mergeStep tf) tf

/-! ## Report reconciliation (`saveMetadataReport`, reconciling variant,
lines 589-629)

The freshly built report and the parsed existing report are JSON
objects `{original: {...}, processed: {...}}`.  Keys of the existing
maps absent from the fresh key sets are deleted (recorded, and logged
as warnings); then `deepmerge(report, parsed)` is written — note the
argument order: the EXISTING report is the deepmerge source and so
takes precedence.  An existing file that is absent, unparseable, or not
of report shape throws inside the `try` and is treated as absent. -/

/-- A parsed report of the persisted schema shape. -/
structure ReportJ where
  original : List (String × Json)
  processed : List (String × Json)

def reportToJson (r : ReportJ) : Json :=
  .obj [("original", .obj r.original), ("processed", .obj r.processed)]

/-- The deletion loop over one section: keys of `old` absent from
`keep` are removed and recorded in order. -/
def pruneKeys (old : List (String × Json)) (keep : List String) :
    List (String × Json) × List String :=
  (old.filter (fun p => keep.contains p.1),
   (old.filter (fun p => !keep.contains p.1)).map (fun p => p.1))

/-- The reconciliation tail of `saveMetadataReport`: returns the JSON
value written to disk, the `deleted` list, and the `console.warn`
lines. -/
def reconcile (report : ReportJ) (existing : Option ReportJ) :
    Json × List String × List String :=
  match existing with
  | none => (reportToJson report, [], [])
  | some parsed =>
    let keysOrig := report.original.map (fun p => p.1)
    let keysProc := report.processed.map (fun p => p.1)
    let prunedO := pruneKeys parsed.original keysOrig
    let prunedP := pruneKeys parsed.processed keysProc
    let deleted := prunedO.2 ++ prunedP.2
    (deepmergeD (reportToJson report) (reportToJson ⟨prunedO.1, prunedP.1⟩),
     deleted,
     if deleted.isEmpty then []
     else
       ("Deleted " ++ toString deleted.length ++
         " keys from existing metadata report for files that no longer exist:") ::
       deleted.map (fun k => "  " ++ k))

/-- Navigation into the written JSON: the object under a top-level
key. -/
def topObj (j : Json) (k : String) : Option (List (String × Json)) :=
  match j with
  | .obj fields =>
    match lookupA fields k with
    | some (.obj m) => some m
    | _ => none
  | _ => none

/-! ## Job planning (`processMany`, process.ts lines 67-95)

Input files are the matches of the glob
`inDir/**/*.{jpg,jpeg,png}`, modelled as the candidate directory
entries (paths relative to `inDir`, one segment per directory level)
filtered by `isImagePath`.  For each (file, target) pair one job is
planned whose output path re-roots the relative path under `outDir`
and renames `basename.ext` to `basename_targetName.ext`, with
`ext = path.extname(filename)` (suffix from the last dot, none for
dotfiles). -/

/-- A parsed target profile (`name` matches `\w+` per the grammar). -/
structure TargetM where
  name : String
  quality : ℚ
  maxWidth : Option ℕ
  maxHeight : Option ℕ
deriving DecidableEq, Repr

def imgExtensions : List String := ["jpg", "jpeg", "png"]

/-- Node `path.basename(name, extname(name))` and `path.extname(name)`:
split at the last dot, except that a dot at position 0 (dotfile) or no
dot at all yields an empty extension. -/
def splitExtName (n : String) : String × String :=
  match (n.data.reverse).dropWhile (fun c => c ≠ '.') with
  | [] => (n, "")
  | [_] => (n, "")
  | _ :: rest =>
    (String.mk rest.reverse,
     String.mk ('.' :: ((n.data.reverse).takeWhile (fun c => c ≠ '.')).reverse))

/-- Last path segment (the filename); paths produced by glob are
nonempty. -/
def lastSeg (p : List String) : String := p.getLastD ""

/-- Membership in the glob `**/*.{jpg,jpeg,png}` (default options: no
segment matches a leading dot). -/
def isImagePath (p : List String) : Bool :=
  !p.isEmpty &&
  p.all (fun seg =>
    match seg.data with
    | [] => false
    | c :: _ => c ≠ '.') &&
  imgExtensions.any (fun e => (("." ++ e).data).isSuffixOf (lastSeg p).data)

/-- One planned job (the fields of `ProcessJob` the claims touch). -/
structure PlanJob where
  inPath : List String
  outPath : List String
  target : TargetM
deriving DecidableEq, Repr

/-- The output path of process.ts lines 80-83, as segments under
`outDir`. -/
def outPathFor (outDir : List String) (rel : List String) (t : TargetM) : List String :=
  outDir ++ rel.dropLast ++
    [(splitExtName (lastSeg rel)).1 ++ "_" ++ t.name ++ (splitExtName (lastSeg rel)).2]

/-- The planning phase of `processMany`: glob, the "no images" guard,
and the job-gathering double loop. -/
def planJobs (inDir : String) (outDir : List String) (entries : List (List String))
    (targets : List TargetM) : Except String (List PlanJob) :=
  match entries.filter isImagePath with
  | [] => .error ("No images found in `" ++ inDir ++ "`")
  | inFiles =>
    .ok (inFiles.flatMap (fun f => targets.map (fun t => ⟨f, outPathFor outDir f t, t⟩)))

/-! ## Job execution (`processOne`, process.ts lines 164-204)

The filesystem is an association list from path to file content
(a byte list); the external tools (magick, cjpegli, exiftool) are
arbitrary `FS → Except String FS` transformers supplied as parameters,
and every I/O action is recorded in an effect trace.  `existsSync` is
only called when `reprocessExisting` is false (`||` short-circuits),
matching the source. -/

structure FileC where
  bytes : List ℕ
deriving DecidableEq, Repr

def FS : Type := List (String × FileC)

/-- `stat(p).size`. -/
def statSize (fs : FS) (p : String) : Option ℕ :=
  (lookupA fs p).map (fun f => f.bytes.length)

inductive Eff where
  | checkExists (p : String)
  | mkdirp (dir : String)
  | tmpAcquire (p : String)
  | tmpRelease (p : String)
  | runMagick (inp : String) (resizeTo : String) (outp : String)
  | runCjpegli (quality : ℚ) (chroma : String) (progressive : String) (inp : String) (outp : String)
  | runExiftoolCopyTags (src : String) (dst : String)
  | runExiftoolStripTags (p : String)
  | statFile (p : String)
deriving DecidableEq, Repr

/-- The external collaborators and host facilities. -/
structure Tools where
  magick : String → String → String → FS → Except String FS
  cjpegli : ℚ → String → String → String → String → FS → Except String FS
  exiftoolCopy : String → String → FS → Except String FS
  exiftoolStrip : String → FS → Except String FS
  tmpPath : String
  prettyBytes : ℕ → String

/-- Node `path.dirname`. -/
def dirname (p : String) : String :=
  match (p.data.reverse).dropWhile (fun c => c ≠ '/') with
  | [] => "."
  | ['/'] => "/"
  | _ :: rest => String.mk rest.reverse

structure JobM where
  chromaSubsampling : String
  inPath : String
  outPath : String
  preserveMetadata : Bool
  progressive : String
  target : TargetM
deriving DecidableEq, Repr

structure ProcessResultM where
  inPath : String
  outPath : String
  outSize : String
  ratio : ℚ
  skipped : Bool
  target : String
deriving DecidableEq, Repr

/-- JS truthiness of `target.maxWidth` (`undefined` and `0` falsy). -/
def truthyNat : Option ℕ → Bool
  | none => false
  | some n => n ≠ 0

/-- The resize geometry of process.ts lines 169-176. -/
def resizeSpec (t : TargetM) : Option String :=
  if truthyNat t.maxWidth && truthyNat t.maxHeight then
    some (toString (t.maxWidth.getD 0) ++ "x" ++ toString (t.maxHeight.getD 0) ++ ">")
  else if truthyNat t.maxWidth then some (toString (t.maxWidth.getD 0) ++ ">")
  else if truthyNat t.maxHeight then some ("x" ++ toString (t.maxHeight.getD 0) ++ ">")
  else none

/-- The final `stat`s and result construction (process.ts lines
194-203), shared by the skipped and processed branches. -/
def finishJob (tools : Tools) (job : JobM) (skipped : Bool) (fs : FS) (effs : List Eff) :
    Except String (ProcessResultM × FS × List Eff) :=
  match statSize fs job.inPath with
  | none => .error ("ENOENT: no such file or directory, stat " ++ job.inPath)
  | some inB =>
    match statSize fs job.outPath with
    | none => .error ("ENOENT: no such file or directory, stat " ++ job.outPath)
    | some outB =>
      .ok ({ inPath := job.inPath
             outPath := job.outPath
             outSize := tools.prettyBytes outB
             ratio := mkRat outB inB
             skipped := skipped
             target := job.target.name },
           fs, effs ++ [.statFile job.inPath, .statFile job.outPath])

/-- The resize step inside `tmp.withFile`: run magick only when a
resize spec exists, else compress the original directly (process.ts
lines 179-184). -/
def magickStage (tools : Tools) (job : JobM) (fs : FS) :
    Except String (String × FS × List Eff) :=
  match resizeSpec job.target with
  | some r =>
    (tools.magick job.inPath r tools.tmpPath fs).map
      (fun fs1 => (tools.tmpPath, fs1, [Eff.runMagick job.inPath r tools.tmpPath]))
  | none => .ok (job.inPath, fs, ([] : List Eff))

/-- The metadata policy step (process.ts lines 189-191): copy all tags
or strip all tags. -/
def exiftoolStage (tools : Tools) (job : JobM) (fs2 : FS) : Except String (FS × Eff) :=
  if job.preserveMetadata then
    (tools.exiftoolCopy job.inPath job.outPath fs2).map
      (fun fs3 => (fs3, Eff.runExiftoolCopyTags job.inPath job.outPath))
  else
    (tools.exiftoolStrip job.outPath fs2).map
      (fun fs3 => (fs3, Eff.runExiftoolStripTags job.outPath))

/-- The non-skipped branch of `processOne` (process.ts lines 166-192). -/
def processBody (tools : Tools) (job : JobM) (fs : FS) (checkEffs : List Eff) :
    Except String (ProcessResultM × FS × List Eff) :=
  match magickStage tools job fs with
  | .error e => .error e
  | .ok (toCompress, fs1, magickEffs) =>
    match tools.cjpegli job.target.quality job.chromaSubsampling job.progressive
        toCompress job.outPath fs1 with
    | .error e => .error e
    | .ok fs2 =>
      match exiftoolStage tools job fs2 with
      | .error e => .error e
      | .ok (fs3, etEff) =>
        finishJob tools job false fs3
          (checkEffs ++ [Eff.mkdirp (dirname job.outPath), Eff.tmpAcquire tools.tmpPath] ++
            magickEffs ++
            [Eff.runCjpegli job.target.quality job.chromaSubsampling job.progressive
                toCompress job.outPath,
              Eff.tmpRelease tools.tmpPath, etEff])

/-- `processOne` (process.ts lines 164-204). -/
def processOne (tools : Tools) (reprocessExisting : Bool) (job : JobM) (fs : FS) :
    Except String (ProcessResultM × FS × List Eff) :=
  -- `reprocessExisting || !existsSync(outPath)`, short-circuited
  if reprocessExisting then processBody tools job fs []
  else if (lookupA fs job.outPath).isSome then
    finishJob tools job true fs [Eff.checkExists job.outPath]
  else processBody tools job fs [Eff.checkExists job.outPath]

/-! ## Claims -/

/-- C5 (counterexample).  The claim says keys are normalized by
stripping spaces, hyphens AND underscores, so that keys differing only
in those characters collapse.  On the input
`"Sub_location : a\nSublocation : b"` the two keys differ only by an
underscore and the claim-normalization collapses them, yet the code
(`replaceAll(/[ -]/g, '')`) keeps them as two distinct keys of the
recovered map. -/
theorem C5_counterexample :
    parseKV "Sub_location : a\nSublocation : b" =
      [("Sub_location", "a"), ("Sublocation", "b")] ∧
    specNormalizeKeyChars "Sub_location".data = specNormalizeKeyChars "Sublocation".data ∧
    "Sub_location" ≠ "Sublocation" := by
  refine ⟨by rfl, by rfl, by decide⟩

/-- C5 (amended).  For every line matched by the key/value pattern the
key is normalized by stripping spaces and hyphens only (underscores are
retained), so keys differing only in spaces and hyphens collapse to one
normalized key: two matched lines whose keys normalize equally leave a
single binding holding the second line's value. -/
theorem C5_key_normalization (l₁ l₂ : String) (k₁ v₁ k₂ v₂ : List Char)
    (hn₁ : '\n' ∉ l₁.data) (hn₂ : '\n' ∉ l₂.data)
    (hm₁ : matchMetadataLine l₁.data = some (k₁, v₁))
    (hm₂ : matchMetadataLine l₂.data = some (k₂, v₂))
    (hkey : normalizeKeyChars k₁ = normalizeKeyChars k₂) :
    parseKV (l₁ ++ "\n" ++ l₂) = [(String.mk (normalizeKeyChars k₁), String.mk v₂)] := by
  unfold parseKV
  have hdata : (l₁ ++ "\n" ++ l₂).data = l₁.data ++ '\n' :: l₂.data := by
    simp [String.data_append]
  rw [hdata, splitLines_append _ _ hn₁, splitLines_no_newline _ hn₂]
  simp only [List.foldl_cons, List.foldl_nil, hm₁, hm₂]
  rw [show updateAssoc ([] : List (String × String)) (String.mk (normalizeKeyChars k₁))
        (String.mk v₁) = [(String.mk (normalizeKeyChars k₁), String.mk v₁)] from rfl]
  simp [updateAssoc, hkey]

/-- C5 (witness for the amended theorem): `Sub-location` and
`Sublocation` collapse; the later line wins. -/
theorem C5_key_normalization_witness :
    parseKV ("Sub-location : a" ++ "\n" ++ "Sublocation : b") = [("Sublocation", "b")] :=
  C5_key_normalization "Sub-location : a" "Sublocation : b"
    "Sub-location ".data "a".data "Sublocation ".data "b".data
    (by decide) (by decide) (by rfl) (by rfl) (by rfl)

/-- C7 (confirmed).  `toDate` fails in exactly two ways: a first
argument not matching the `YYYY:MM:DD HH:MM:SS` pattern yields
"Could not parse DateTimeOriginal field" whatever the offset is; a
matching first argument whose ISO-8601 composition with the offset is
not a valid instant yields "Invalid date"; and every error is one of
those two strings (so neither case returns a success). -/
theorem C7_toDate_failure_modes (tz : Int) (dto oto : String) :
    (dtoMatch dto = none →
      toDate tz dto oto = .error "Could not parse DateTimeOriginal field") ∧
    (∀ y mo d h mi s, dtoMatch dto = some (y, mo, d, h, mi, s) →
      jsDateParse tz (composeIso y mo d h mi s (if oto = "00:00" then "Z" else oto)) = none →
      toDate tz dto oto = .error "Invalid date") ∧
    (∀ e, toDate tz dto oto = .error e →
      e = "Could not parse DateTimeOriginal field" ∨ e = "Invalid date") := by
  refine ⟨fun hnone => ?_, fun y mo d h mi s hsome hinv => ?_, fun e herr => ?_⟩
  · unfold toDate
    rw [hnone]
  · unfold toDate
    rw [hsome]
    dsimp only
    rw [hinv]
  · unfold toDate at herr
    cases hdm : dtoMatch dto with
    | none => rw [hdm] at herr; cases herr; left; rfl
    | some flds =>
      obtain ⟨y, mo, d, h, mi, s⟩ := flds
      rw [hdm] at herr
      dsimp only at herr
      cases hjp : jsDateParse tz (composeIso y mo d h mi s (if oto = "00:00" then "Z" else oto)) with
      | none => rw [hjp] at herr; cases herr; right; rfl
      | some ep => rw [hjp] at herr; cases herr

/-- C7 (witness): both failure modes at the spec's own test inputs. -/
theorem C7_toDate_failure_modes_witness :
    toDate 0 "garbage" "-05:00" = .error "Could not parse DateTimeOriginal field" ∧
    toDate 0 "2024:05:25 15:35:05" "garbage" = .error "Invalid date" :=
  ⟨(C7_toDate_failure_modes 0 "garbage" "-05:00").1 (by rfl),
   (C7_toDate_failure_modes 0 "2024:05:25 15:35:05" "garbage").2.1
     "2024".data "05".data "25".data "15".data "35".data "05".data (by rfl) (by rfl)⟩

theorem parseMillisTail_not_dot (c : Char) (rest : List Char) (hc : c ≠ '.') :
    parseMillisTail (c :: rest) = (0, c :: rest) := by
  unfold parseMillisTail
  split
  · rename_i a b d r heq
    cases heq
    exact absurd rfl hc
  · rfl

/-- Shape of a successful `dtoMatch`: six all-digit substrings of the
expected widths. -/
theorem dtoMatch_shape {str : String} {y mo d h mi sec : List Char}
    (hm : dtoMatch str = some (y, mo, d, h, mi, sec)) :
    ∃ y1 y2 y3 y4 o1 o2 d1 d2 h1 h2 i1 i2 s1 s2,
      y = [y1, y2, y3, y4] ∧ mo = [o1, o2] ∧ d = [d1, d2] ∧ h = [h1, h2] ∧
      mi = [i1, i2] ∧ sec = [s1, s2] ∧
      [y1, y2, y3, y4, o1, o2, d1, d2, h1, h2, i1, i2, s1, s2].all Char.isDigit = true := by
  unfold dtoMatch at hm
  split at hm
  · split at hm
    · rename_i y1 y2 y3 y4 c1 o1 o2 c2 d1 d2 sp h1 h2 c3 i1 i2 c4 s1 s2 heq hcond
      simp only [Option.some.injEq, Prod.mk.injEq] at hm
      obtain ⟨h1', h2', h3', h4', h5', h6'⟩ := hm
      simp only [Bool.and_eq_true] at hcond
      exact ⟨y1, y2, y3, y4, o1, o2, d1, d2, h1, h2, i1, i2, s1, s2,
        h1'.symm, h2'.symm, h3'.symm, h4'.symm, h5'.symm, h6'.symm, hcond.1.1.1.1.1⟩
    · cases hm
  · cases hm

/-- A list accepted by `parseOffsetPart` never starts with a dot. -/
theorem parseOffsetPart_head {c : Char} {rest : List Char} {spec : OffSpec}
    (h : parseOffsetPart (c :: rest) = some spec) : c ≠ '.' := by
  unfold parseOffsetPart at h
  split at h
  · rename_i heq
    cases heq
  · rename_i heq
    cases heq
    decide
  · rename_i si a b co cc dd heq
    split at h
    · rename_i hcond
      simp only [Bool.and_eq_true, Bool.or_eq_true, decide_eq_true_eq] at hcond
      cases heq
      rcases hcond.1.1.1.1.1.1.1 with hsi | hsi <;> rw [hsi] <;> decide
    · cases h
  · cases h

/-- Consequence of a well-formed offset: no `.sss` millisecond part is
consumed, and `parseOffsetPart` yields `Z` or the fixed offset `ov`. -/
theorem offsetVal_parse {off : String} {ov : Int} (hoff : offsetVal off = some ov) :
    parseMillisTail off.data = (0, off.data) ∧
      ((parseOffsetPart off.data = some .utc ∧ ov = 0) ∨
        parseOffsetPart off.data = some (.fixed ov)) := by
  unfold offsetVal at hoff
  cases hpp : parseOffsetPart off.data with
  | none => rw [hpp] at hoff; cases hoff
  | some spec =>
    rw [hpp] at hoff
    have hshape : parseMillisTail off.data = (0, off.data) := by
      cases hd : off.data with
      | nil => rfl
      | cons c rest =>
        rw [hd] at hpp
        exact parseMillisTail_not_dot c rest (parseOffsetPart_head hpp)
    cases spec with
    | localTime => cases hoff
    | utc =>
      cases hoff
      exact ⟨hshape, Or.inl ⟨rfl, rfl⟩⟩
    | fixed k =>
      cases hoff
      exact ⟨hshape, Or.inr rfl⟩

/-- C6 (counterexample).  `"2024:13:01 00:00:00"` matches the
`YYYY:MM:DD HH:MM:SS` pattern and `"Z"` is a well-formed offset, so the
claim asserts success; the code returns "Invalid date" because the
composed ISO string has month 13. -/
theorem C6_counterexample :
    dtoMatch "2024:13:01 00:00:00" =
      some ("2024".data, "13".data, "01".data, "00".data, "00".data, "00".data) ∧
    offsetVal "Z" = some 0 ∧
    toDate 0 "2024:13:01 00:00:00" "Z" = .error "Invalid date" :=
  ⟨rfl, rfl, rfl⟩

/-- C6 (amended).  For every date string matching `YYYY:MM:DD HH:MM:SS`
WHOSE FIELDS FORM A VALID CALENDAR INSTANT, and every well-formed UTC
offset, `toDate` succeeds and returns the instant obtained by composing
the date with the offset (epoch milliseconds of the fields read as UTC,
minus the offset) together with the local wall-clock tuple taken
verbatim from the input; an absent offset defaults to `Z` and the
sentinel `"00:00"` behaves as `"Z"`. -/
theorem C6_toDate_success (tz : Int) (dto off : String)
    (y mo d h mi s : List Char) (ov : Int)
    (hm : dtoMatch dto = some (y, mo, d, h, mi, s))
    (hval : dateFieldsOK (digitsToNat y) (digitsToNat mo) (digitsToNat d)
      (digitsToNat h) (digitsToNat mi) (digitsToNat s) 0 = true)
    (hoff : offsetVal off = some ov) :
    toDate tz dto off =
      .ok ⟨epochMillis (digitsToNat y) (digitsToNat mo) (digitsToNat d)
            (digitsToNat h) (digitsToNat mi) (digitsToNat s) 0 - ov,
           (digitsToNat y, digitsToNat mo, digitsToNat d,
            digitsToNat h, digitsToNat mi, digitsToNat s)⟩ ∧
    toDate tz dto "00:00" = toDate tz dto "Z" ∧
    toDate tz dto = toDate tz dto "Z" := by
  obtain ⟨y1, y2, y3, y4, o1, o2, d1, d2, h1, h2, i1, i2, s1, s2,
    rfl, rfl, rfl, rfl, rfl, rfl, hdig⟩ := dtoMatch_shape hm
  obtain ⟨hmt, hopp⟩ := offsetVal_parse hoff
  have hnotsent : off ≠ "00:00" := by
    intro hcontra
    rw [hcontra] at hoff
    cases hoff
  refine ⟨?_, ?_, rfl⟩
  · unfold toDate
    rw [hm]
    dsimp only
    rw [if_neg hnotsent]
    have hciso : composeIso [y1, y2, y3, y4] [o1, o2] [d1, d2] [h1, h2] [i1, i2] [s1, s2] off =
        y1 :: y2 :: y3 :: y4 :: '-' :: o1 :: o2 :: '-' :: d1 :: d2 :: 'T' :: h1 :: h2 :: ':' ::
          i1 :: i2 :: ':' :: s1 :: s2 :: off.data := by
      simp [composeIso]
    rw [hciso]
    unfold jsDateParse
    dsimp only
    rw [if_pos (by simp [hdig])]
    rw [hmt]
    dsimp only
    rcases hopp with ⟨hutc, rfl⟩ | hfix
    · rw [hutc]
      dsimp only
      rw [if_pos hval]
    · rw [hfix]
      dsimp only
      rw [if_pos hval]
  · unfold toDate
    rw [hm]
    dsimp only
    rw [if_pos rfl, if_neg (by decide)]

/-- C6 (witness for the amended theorem): the spec's own example. -/
theorem C6_toDate_success_witness :
    toDate 0 "2024:05:25 15:35:05" "-05:00" =
      .ok ⟨1716669305000, (2024, 5, 25, 15, 35, 5)⟩ :=
  ((C6_toDate_success 0 "2024:05:25 15:35:05" "-05:00"
      "2024".data "05".data "25".data "15".data "35".data "05".data (-18000000)
      (by rfl) (by rfl) (by rfl)).1).trans (by rfl)

theorem lookupA_mem {α : Type} {l : List (String × α)} {k : String} {v : α}
    (h : lookupA l k = some v) : (k, v) ∈ l := by
  induction l with
  | nil => cases h
  | cons p rest ih =>
    obtain ⟨a, b⟩ := p
    simp only [lookupA] at h
    split at h
    · rename_i hcond
      cases h
      rw [show a = k from hcond] at *
      exact List.mem_cons_self _ _
    · exact List.mem_cons_of_mem _ (ih h)

/-- Unfolding of a successful schema parse into its field reads. -/
theorem metadataSchemaParse_fields {kv : List (String × String)} {data : SchemaData}
    (h : metadataSchemaParse kv = some data) :
    data.Location = lookupA kv "Location" ∧
    data.Sublocation = lookupA kv "Sublocation" ∧
    data.DateTimeOriginal = lookupA kv "DateTimeOriginal" ∧
    data.OffsetTimeOriginal = lookupA kv "OffsetTimeOriginal" := by
  unfold metadataSchemaParse at h
  split at h
  · split at h
    · cases h
      exact ⟨rfl, rfl, rfl, rfl⟩
    · cases h
  · cases h

theorem metadataSchemaParse_kv_ne_nil {kv : List (String × String)} {data : SchemaData}
    (h : metadataSchemaParse kv = some data) : kv ≠ [] := by
  intro hnil
  rw [hnil] at h
  cases h

/-- `jsLocation` agrees with the claim's description whenever the two
values, when present, are nonempty (every recovered value is). -/
theorem jsLocation_eq_claim (loc subloc : Option String)
    (hl : ∀ s, loc = some s → s ≠ "") (hs : ∀ s, subloc = some s → s ≠ "") :
    jsLocation loc subloc = claimLocation loc subloc := by
  cases loc with
  | none =>
    cases subloc with
    | none => rfl
    | some s => simp [jsLocation, claimLocation, truthy]
  | some l =>
    have hl' : l ≠ "" := hl l rfl
    cases subloc with
    | none => simp [jsLocation, claimLocation, truthy, hl']
    | some s =>
      have hs' : s ≠ "" := hs s rfl
      simp only [jsLocation, claimLocation, truthy, hl', hs', decide_not]
      by_cases hlen : l.length < s.length
      · simp [hlen, hl', hs']
      · simp only [gt_iff_lt, hlen]
        simp [hl', hs', hlen]

/-- Common unfolding: with a successful schema parse,
`parseExiftoolMetadata` succeeds and its payload is the metadata record
built from the parsed data plus the warnings of the date step. -/
theorem parseExiftoolMetadata_ok (tz : Int) (raw : String) (data : SchemaData)
    (hsp : metadataSchemaParse (parseKV raw) = some data) :
    parseExiftoolMetadata tz raw =
      .ok ({ cameraMake := data.Make
             cameraModel := data.Model
             cameraProfile := data.CameraProfile
             date := (dateOfData tz data).1
             description := data.CaptionAbstract
             exposureTime := data.ExposureTime
             fNumber := data.FNumber
             focalLength :=
               if truthy data.FocalLength then
                 match focalLengthMatch (data.FocalLength.getD "").data with
                 | some g => some (jsParseFloat g)
                 | none => none
               else none
             height := data.ImageHeight
             iso := data.ISO
             lensMake := data.LensMake
             lensModel := data.LensModel
             localDate := (dateOfData tz data).2.1
             location := jsLocation data.Location data.Sublocation
             title := data.ObjectName
             width := data.ImageWidth }, (dateOfData tz data).2.2) := by
  have hkvne := metadataSchemaParse_kv_ne_nil hsp
  unfold parseExiftoolMetadata
  split
  · rename_i heq
    exact absurd heq hkvne
  · rw [hsp]

/-- C8 (confirmed).  Whenever schema validation succeeds, the
metadata's `location` field follows the claimed rule: with both
`Location` and `Sub-location` recovered it is the textually longer of
the two (`Location` on ties), with exactly one recovered it is that
one, and with neither it is absent. -/
theorem C8_location_preference (tz : Int) (raw : String) (data : SchemaData)
    (hsp : metadataSchemaParse (parseKV raw) = some data) :
    ∃ md warns, parseExiftoolMetadata tz raw = .ok (md, warns) ∧
      md.location = claimLocation data.Location data.Sublocation := by
  obtain ⟨hLoc, hSub, _, _⟩ := metadataSchemaParse_fields (by
    exact hsp)
  refine ⟨_, _, parseExiftoolMetadata_ok tz raw data hsp, ?_⟩
  show jsLocation data.Location data.Sublocation = claimLocation data.Location data.Sublocation
  apply jsLocation_eq_claim
  · intro s hls
    rw [hls] at hLoc
    exact parseKV_values_ne_empty raw _ (lookupA_mem hLoc.symm)
  · intro s hss
    rw [hss] at hSub
    exact parseKV_values_ne_empty raw _ (lookupA_mem hSub.symm)

def C8raw : String :=
  "ImageWidth : 1\nImageHeight : 1\nLocation : abc\nSub-location : abcdef"

/-- C8 (witness): `Sub-location` is longer and wins. -/
theorem C8_location_preference_witness :
    ∃ md warns, parseExiftoolMetadata 0 C8raw = .ok (md, warns) ∧
      md.location = some "abcdef" := by
  obtain ⟨data, hdata⟩ : ∃ d, metadataSchemaParse (parseKV C8raw) = some d := ⟨_, rfl⟩
  obtain ⟨md, warns, h1, h2⟩ := C8_location_preference 0 C8raw data hdata
  obtain ⟨hLoc, hSub, _, _⟩ := metadataSchemaParse_fields hdata
  refine ⟨md, warns, h1, ?_⟩
  rw [h2, hLoc, hSub]
  rfl

/-- C10 (confirmed).  When schema validation succeeds and the recovered
`DateTimeOriginal` is present (truthy) but `toDate` fails on it,
`parseExiftoolMetadata` still succeeds: the failure is only reported as
a warning line and the metadata's `date` and `localDate` fields are
absent. -/
theorem C10_date_failure_nonfatal (tz : Int) (raw : String) (data : SchemaData) (e : String)
    (hsp : metadataSchemaParse (parseKV raw) = some data)
    (hdto : truthy data.DateTimeOriginal = true)
    (hfail : toDate tz (data.DateTimeOriginal.getD "")
      (data.OffsetTimeOriginal.getD "Z") = .error e) :
    ∃ md, parseExiftoolMetadata tz raw =
      .ok (md,
        ["Error parsing date from " ++ data.DateTimeOriginal.getD "" ++ ", " ++
          (match data.OffsetTimeOriginal with | some s => s | none => "undefined") ++
          ": " ++ e]) ∧
      md.date = none ∧ md.localDate = none := by
  have hdod : dateOfData tz data =
      (none, none,
        ["Error parsing date from " ++ data.DateTimeOriginal.getD "" ++ ", " ++
          (match data.OffsetTimeOriginal with | some s => s | none => "undefined") ++
          ": " ++ e]) := by
    unfold dateOfData
    rw [if_pos hdto, hfail]
  have h := parseExiftoolMetadata_ok tz raw data hsp
  rw [hdod] at h
  exact ⟨_, h, rfl, rfl⟩

def C10raw : String := "ImageWidth : 1\nImageHeight : 1\nDateTimeOriginal : garbage"

/-- C10 (witness): an unparseable `DateTimeOriginal` only produces a
warning. -/
theorem C10_date_failure_nonfatal_witness :
    ∃ md, parseExiftoolMetadata 0 C10raw =
      .ok (md, ["Error parsing date from garbage, undefined: Could not parse DateTimeOriginal field"]) ∧
      md.date = none ∧ md.localDate = none := by
  obtain ⟨data, hdata⟩ : ∃ d, metadataSchemaParse (parseKV C10raw) = some d := ⟨_, rfl⟩
  have hd := C10_date_failure_nonfatal 0 C10raw data
    "Could not parse DateTimeOriginal field" hdata
    (by
      obtain ⟨_, _, hdto, _⟩ := metadataSchemaParse_fields hdata
      rw [hdto]
      rfl)
    (by
      obtain ⟨_, _, hdto, hoto⟩ := metadataSchemaParse_fields hdata
      rw [hdto, hoto]
      rfl)
  obtain ⟨md, h1, h2, h3⟩ := hd
  refine ⟨md, ?_, h2, h3⟩
  obtain ⟨_, _, hdto, hoto⟩ := metadataSchemaParse_fields hdata
  rw [h1, hdto, hoto]
  rfl

theorem lookupA_eq_none_of_not_mem {α : Type} {l : List (String × α)} {k : String}
    (h : k ∉ l.map Prod.fst) : lookupA l k = none := by
  induction l with
  | nil => rfl
  | cons p rest ih =>
    simp only [List.map_cons, List.mem_cons, not_or] at h
    have hp : ¬ p.1 = k := fun hc => h.1 hc.symm
    simp only [lookupA, if_neg hp]
    exact ih h.2

theorem mergeFold_preserve (tf : List (String × Json)) (k : String) :
    ∀ (sf : List (String × Json)) (dest : List (String × Json)),
      (∀ q ∈ sf, q.1 ≠ k) →
      lookupA (sf.foldl (mergeStep tf) dest) k = lookupA dest k := by
  intro sf
  induction sf with
  | nil => intro dest _; rfl
  | cons q rest ih =>
    intro dest hk
    simp only [List.foldl_cons]
    rw [ih _ (fun q' hq' => hk q' (List.mem_cons_of_mem q hq'))]
    exact lookupA_updateAssoc_other dest k q.1 _ (hk q (List.mem_cons_self q rest))

theorem mergeFold_lookup (tf : List (String × Json)) (k : String) {sv : Json} :
    ∀ (sf : List (String × Json)) (dest : List (String × Json)),
      lookupA sf k = some sv → (sf.map Prod.fst).Nodup →
      lookupA (sf.foldl (mergeStep tf) dest) k =
        some (match lookupA tf k with
              | some tv => mergeEntry tv sv
              | none => sv) := by
  intro sf
  induction sf with
  | nil => intro dest h _; cases h
  | cons q rest ih =>
    intro dest hl hnd
    simp only [List.map_cons, List.nodup_cons] at hnd
    simp only [lookupA] at hl
    by_cases hq : q.1 = k
    · rw [if_pos hq] at hl
      cases hl
      simp only [List.foldl_cons]
      have hrest : ∀ q' ∈ rest, q'.1 ≠ k := by
        intro q' hq' hc
        exact hnd.1 (hq ▸ hc ▸ List.mem_map_of_mem Prod.fst hq')
      rw [mergeFold_preserve tf k rest _ hrest]
      unfold mergeStep
      rw [hq]
      exact lookupA_updateAssoc_self dest k _
    · rw [if_neg hq] at hl
      simp only [List.foldl_cons]
      exact ih _ hl hnd.2

theorem lookupA_filter_key {α : Type} (pr : String → Bool) {k : String}
    (hk : pr k = true) :
    ∀ (l : List (String × α)), lookupA (l.filter (fun p => pr p.1)) k = lookupA l k := by
  intro l
  induction l with
  | nil => rfl
  | cons p rest ih =>
    by_cases hp : p.1 = k
    · rw [List.filter_cons, if_pos (by rw [hp]; simpa using hk)]
      simp [lookupA, hp]
    · rw [List.filter_cons]
      by_cases hpr : pr p.1
      · rw [if_pos (by simpa using hpr)]
        simp only [lookupA, if_neg hp]
        exact ih
      · rw [if_neg (by simpa using hpr)]
        rw [ih]
        simp [lookupA, hp]

/-- The two-section shape of the written merge. -/
theorem deepmergeD_report (r p : ReportJ) :
    deepmergeD (reportToJson r) (reportToJson p) =
      .obj [("original", .obj (p.original.foldl (mergeStep r.original) r.original)),
            ("processed", .obj (p.processed.foldl (mergeStep r.processed) r.processed))] := by
  unfold reportToJson
  rw [deepmergeD_obj_obj]
  simp [List.foldl_cons, List.foldl_nil, mergeStep, lookupA, updateAssoc, mergeEntry,
    isMergeableJ, deepmergeD_obj_obj,
    show ("original" : String) ≠ "processed" by decide,
    show ("processed" : String) ≠ "original" by decide]

theorem contains_of_mem_keys {l : List String} {k : String} (h : k ∈ l) :
    l.contains k = true := by
  simpa using h

theorem not_contains_of_not_mem_keys {l : List String} {k : String} (h : k ∉ l) :
    l.contains k = false := by
  simpa using h

/-- C2 (confirmed).  Every key of the existing report's `original`
(resp. `processed`) map that is absent from the new report's key set is
recorded in the deleted list, logged in a warning line naming it, and
absent from the corresponding map of the written merged report. -/
theorem C2_report_pruning (report parsed : ReportJ) (k : String) :
    (k ∈ parsed.original.map (fun p => p.1) →
      k ∉ report.original.map (fun p => p.1) →
      k ∈ (reconcile report (some parsed)).2.1 ∧
      ("  " ++ k) ∈ (reconcile report (some parsed)).2.2 ∧
      ∀ m, topObj (reconcile report (some parsed)).1 "original" = some m →
        lookupA m k = none) ∧
    (k ∈ parsed.processed.map (fun p => p.1) →
      k ∉ report.processed.map (fun p => p.1) →
      k ∈ (reconcile report (some parsed)).2.1 ∧
      ("  " ++ k) ∈ (reconcile report (some parsed)).2.2 ∧
      ∀ m, topObj (reconcile report (some parsed)).1 "processed" = some m →
        lookupA m k = none) := by
  have hrec : reconcile report (some parsed) =
      (deepmergeD (reportToJson report)
        (reportToJson ⟨(pruneKeys parsed.original (report.original.map (fun p => p.1))).1,
                       (pruneKeys parsed.processed (report.processed.map (fun p => p.1))).1⟩),
       (pruneKeys parsed.original (report.original.map (fun p => p.1))).2 ++
         (pruneKeys parsed.processed (report.processed.map (fun p => p.1))).2,
       (reconcile report (some parsed)).2.2) := rfl
  constructor
  · intro hin hout
    obtain ⟨q, hq, hqk⟩ := List.mem_map.mp hin
    have hqcont : (report.original.map (fun p => p.1)).contains q.1 = false := by
      apply not_contains_of_not_mem_keys
      rw [hqk]
      exact hout
    have hkdel : k ∈ (pruneKeys parsed.original (report.original.map (fun p => p.1))).2 := by
      unfold pruneKeys
      refine List.mem_map.mpr ⟨q, ?_, hqk⟩
      refine List.mem_filter.mpr ⟨hq, ?_⟩
      dsimp only
      rw [hqcont]
      rfl
    refine ⟨?_, ?_, ?_⟩
    · rw [hrec]
      exact List.mem_append_left _ hkdel
    · have hdelmem : k ∈ (reconcile report (some parsed)).2.1 := by
        rw [hrec]
        exact List.mem_append_left _ hkdel
      unfold reconcile
      dsimp only
      rw [if_neg (by
        intro hempty
        rw [List.isEmpty_iff] at hempty
        rw [hrec] at hdelmem
        dsimp only at hdelmem
        rw [hempty] at hdelmem
        cases hdelmem)]
      refine List.mem_cons_of_mem _ (List.mem_map.mpr ⟨k, ?_, rfl⟩)
      rw [hrec] at hdelmem
      exact hdelmem
    · intro m hm
      rw [hrec, deepmergeD_report] at hm
      simp only [topObj, lookupA, if_pos rfl] at hm
      cases hm
      have hfact : ∀ q' ∈ (pruneKeys parsed.original (report.original.map (fun p => p.1))).1,
          q'.1 ≠ k := by
        intro q' hq' hq'k
        have := (List.mem_filter.mp hq').2
        rw [hq'k] at this
        rw [not_contains_of_not_mem_keys hout] at this
        cases this
      rw [mergeFold_preserve _ _ _ _ hfact]
      exact lookupA_eq_none_of_not_mem hout
  · intro hin hout
    obtain ⟨q, hq, hqk⟩ := List.mem_map.mp hin
    have hqcont : (report.processed.map (fun p => p.1)).contains q.1 = false := by
      apply not_contains_of_not_mem_keys
      rw [hqk]
      exact hout
    have hkdel : k ∈ (pruneKeys parsed.processed (report.processed.map (fun p => p.1))).2 := by
      unfold pruneKeys
      refine List.mem_map.mpr ⟨q, ?_, hqk⟩
      refine List.mem_filter.mpr ⟨hq, ?_⟩
      dsimp only
      rw [hqcont]
      rfl
    refine ⟨?_, ?_, ?_⟩
    · rw [hrec]
      exact List.mem_append_right _ hkdel
    · have hdelmem : k ∈ (reconcile report (some parsed)).2.1 := by
        rw [hrec]
        exact List.mem_append_right _ hkdel
      unfold reconcile
      dsimp only
      rw [if_neg (by
        intro hempty
        rw [List.isEmpty_iff] at hempty
        rw [hrec] at hdelmem
        dsimp only at hdelmem
        rw [hempty] at hdelmem
        cases hdelmem)]
      refine List.mem_cons_of_mem _ (List.mem_map.mpr ⟨k, ?_, rfl⟩)
      rw [hrec] at hdelmem
      exact hdelmem
    · intro m hm
      rw [hrec, deepmergeD_report] at hm
      simp only [topObj, lookupA,
        show (("original" : String) = "processed") = False by simp,
        show (("processed" : String) = "processed") = True by simp] at hm
      cases hm
      have hfact : ∀ q' ∈ (pruneKeys parsed.processed (report.processed.map (fun p => p.1))).1,
          q'.1 ≠ k := by
        intro q' hq' hq'k
        have := (List.mem_filter.mp hq').2
        rw [hq'k] at this
        rw [not_contains_of_not_mem_keys hout] at this
        cases this
      rw [mergeFold_preserve _ _ _ _ hfact]
      exact lookupA_eq_none_of_not_mem hout

/-- C2 (witness): an existing report with keys `a.jpg`/`a_thumb.jpg`
whose new run no longer includes them. -/
theorem C2_report_pruning_witness :
    let report : ReportJ := ⟨[("b.jpg", Json.obj [])], [("b_thumb.jpg", Json.obj [])]⟩
    let parsed : ReportJ := ⟨[("a.jpg", Json.obj [])], [("a_thumb.jpg", Json.obj [])]⟩
    ("a.jpg" ∈ (reconcile report (some parsed)).2.1 ∧
      ("  " ++ "a.jpg") ∈ (reconcile report (some parsed)).2.2 ∧
      ∀ m, topObj (reconcile report (some parsed)).1 "original" = some m →
        lookupA m "a.jpg" = none) ∧
    ("a_thumb.jpg" ∈ (reconcile report (some parsed)).2.1 ∧
      ("  " ++ "a_thumb.jpg") ∈ (reconcile report (some parsed)).2.2 ∧
      ∀ m, topObj (reconcile report (some parsed)).1 "processed" = some m →
        lookupA m "a_thumb.jpg" = none) := by
  intro report parsed
  exact ⟨(C2_report_pruning report parsed "a.jpg").1 (by decide) (by decide),
         (C2_report_pruning report parsed "a_thumb.jpg").2 (by decide) (by decide)⟩

def C1reportNew : ReportJ := ⟨[("a.jpg", Json.obj [("iso", Json.str "100")])], []⟩
def C1reportOld : ReportJ := ⟨[("a.jpg", Json.obj [("iso", Json.str "200")])], []⟩

/-- Reading a section of the written two-section object. -/
theorem topObj_report_pair (A B : List (String × Json)) :
    topObj (.obj [("original", .obj A), ("processed", .obj B)]) "original" = some A ∧
    topObj (.obj [("original", .obj A), ("processed", .obj B)]) "processed" = some B := by
  constructor <;>
    simp [topObj, lookupA, show ("original" : String) ≠ "processed" from by decide,
      show ("processed" : String) ≠ "original" from by decide]

/-- C1 (counterexample).  The claim says a key present in both reports
is written with the NEW run's value.  With the new run recording
`a.jpg ↦ {iso: "100"}` and the existing report `a.jpg ↦ {iso: "200"}`,
the written value is the EXISTING `{iso: "200"}`, not the new
`{iso: "100"}` — `deepmerge(report, parsed)` makes the existing report
the merge source, which wins. -/
theorem C1_counterexample :
    (∃ m, topObj (reconcile C1reportNew (some C1reportOld)).1 "original" = some m ∧
      lookupA m "a.jpg" = some (Json.obj [("iso", Json.str "200")])) ∧
    lookupA C1reportNew.original "a.jpg" = some (Json.obj [("iso", Json.str "100")]) ∧
    Json.obj [("iso", Json.str "200")] ≠ Json.obj [("iso", Json.str "100")] := by
  refine ⟨⟨[("a.jpg", Json.obj [("iso", Json.str "200")])], ?_, by rfl⟩, by rfl, by simp⟩
  show topObj (reconcile C1reportNew (some C1reportOld)).1 "original" = _
  have hrec : (reconcile C1reportNew (some C1reportOld)).1 =
      deepmergeD (reportToJson C1reportNew) (reportToJson C1reportOld) := by
    rfl
  rw [hrec, deepmergeD_report]
  rw [(topObj_report_pair _ _).1]
  congr 1
  simp [C1reportNew, C1reportOld, mergeStep, mergeEntry, isMergeableJ, lookupA, updateAssoc,
    deepmergeD_obj_obj]

theorem lookupA_none_forall {α : Type} {l : List (String × α)} {k : String}
    (h : lookupA l k = none) : ∀ q ∈ l, q.1 ≠ k := by
  induction l with
  | nil => intro q hq; cases hq
  | cons p rest ih =>
    intro q hq
    simp only [lookupA] at h
    split at h
    · cases h
    · rename_i hp
      rcases List.mem_cons.mp hq with rfl | hq2
      · exact hp
      · exact ih h q hq2

/-- C1 (amended).  When an existing report was read and parsed, the
merge gives precedence to the EXISTING report's values — the reverse of
the claimed direction — in both sections of the report: a key present
in both the new and the (post-pruning) existing map is written as
`deepmerge(newValue, existingValue)` with the existing value the
winning merge source (in particular a non-mergeable existing value is
written unchanged); a key present only in the new map keeps the new
run's value untouched; and the original claim's clause about keys
unique to the retained part of the old report holds vacuously, because
every retained key of the existing report is also a key of the new
report.  (Keys of a JS object are unique, hence the `Nodup`
hypotheses.) -/
theorem C1_merge_existing_precedence (report parsed : ReportJ) (k : String) :
    (∀ vN vO, lookupA report.original k = some vN →
      lookupA parsed.original k = some vO →
      (parsed.original.map (fun p => p.1)).Nodup →
      ∃ m, topObj (reconcile report (some parsed)).1 "original" = some m ∧
        lookupA m k = some (mergeEntry vN vO) ∧
        (isMergeableJ vO = false → mergeEntry vN vO = vO)) ∧
    (∀ vN, lookupA report.original k = some vN →
      lookupA parsed.original k = none →
      ∃ m, topObj (reconcile report (some parsed)).1 "original" = some m ∧
        lookupA m k = some vN) ∧
    (∀ vN vO, lookupA report.processed k = some vN →
      lookupA parsed.processed k = some vO →
      (parsed.processed.map (fun p => p.1)).Nodup →
      ∃ m, topObj (reconcile report (some parsed)).1 "processed" = some m ∧
        lookupA m k = some (mergeEntry vN vO) ∧
        (isMergeableJ vO = false → mergeEntry vN vO = vO)) ∧
    (∀ vN, lookupA report.processed k = some vN →
      lookupA parsed.processed k = none →
      ∃ m, topObj (reconcile report (some parsed)).1 "processed" = some m ∧
        lookupA m k = some vN) ∧
    (k ∈ ((pruneKeys parsed.original (report.original.map (fun p => p.1))).1).map
        (fun p => p.1) →
      k ∈ report.original.map (fun p => p.1)) ∧
    (k ∈ ((pruneKeys parsed.processed (report.processed.map (fun p => p.1))).1).map
        (fun p => p.1) →
      k ∈ report.processed.map (fun p => p.1)) := by
  have hrec : (reconcile report (some parsed)).1 =
      deepmergeD (reportToJson report)
        (reportToJson ⟨(pruneKeys parsed.original (report.original.map (fun p => p.1))).1,
                       (pruneKeys parsed.processed (report.processed.map (fun p => p.1))).1⟩) :=
    rfl
  refine ⟨?_, ?_, ?_, ?_, ?_, ?_⟩
  · intro vN vO hN hO hnd
    have hkmem : k ∈ report.original.map (fun p => p.1) :=
      List.mem_map.mpr ⟨(k, vN), lookupA_mem hN, rfl⟩
    have hcont := contains_of_mem_keys hkmem
    rw [hrec, deepmergeD_report]
    refine ⟨_, (topObj_report_pair _ _).1, ?_, ?_⟩
    · have hkept :
          lookupA (pruneKeys parsed.original (report.original.map (fun p => p.1))).1 k =
            some vO := by
        unfold pruneKeys
        rw [lookupA_filter_key _ hcont]
        exact hO
      have hndkept :
          (((pruneKeys parsed.original (report.original.map (fun p => p.1))).1).map
            (fun p => p.1)).Nodup := by
        unfold pruneKeys
        exact List.Nodup.sublist (List.Sublist.map _ (List.filter_sublist _)) hnd
      rw [mergeFold_lookup _ _ _ _ hkept hndkept, hN]
    · intro hnm
      unfold mergeEntry
      rw [hnm]
      rfl
  · intro vN hN hOnone
    rw [hrec, deepmergeD_report]
    refine ⟨_, (topObj_report_pair _ _).1, ?_⟩
    have hfact : ∀ q ∈ (pruneKeys parsed.original (report.original.map (fun p => p.1))).1,
        q.1 ≠ k := by
      intro q hq
      unfold pruneKeys at hq
      exact lookupA_none_forall hOnone q (List.mem_filter.mp hq).1
    rw [mergeFold_preserve _ _ _ _ hfact]
    exact hN
  · intro vN vO hN hO hnd
    have hkmem : k ∈ report.processed.map (fun p => p.1) :=
      List.mem_map.mpr ⟨(k, vN), lookupA_mem hN, rfl⟩
    have hcont := contains_of_mem_keys hkmem
    rw [hrec, deepmergeD_report]
    refine ⟨_, (topObj_report_pair _ _).2, ?_, ?_⟩
    · have hkept :
          lookupA (pruneKeys parsed.processed (report.processed.map (fun p => p.1))).1 k =
            some vO := by
        unfold pruneKeys
        rw [lookupA_filter_key _ hcont]
        exact hO
      have hndkept :
          (((pruneKeys parsed.processed (report.processed.map (fun p => p.1))).1).map
            (fun p => p.1)).Nodup := by
        unfold pruneKeys
        exact List.Nodup.sublist (List.Sublist.map _ (List.filter_sublist _)) hnd
      rw [mergeFold_lookup _ _ _ _ hkept hndkept, hN]
    · intro hnm
      unfold mergeEntry
      rw [hnm]
      rfl
  · intro vN hN hOnone
    rw [hrec, deepmergeD_report]
    refine ⟨_, (topObj_report_pair _ _).2, ?_⟩
    have hfact : ∀ q ∈ (pruneKeys parsed.processed (report.processed.map (fun p => p.1))).1,
        q.1 ≠ k := by
      intro q hq
      unfold pruneKeys at hq
      exact lookupA_none_forall hOnone q (List.mem_filter.mp hq).1
    rw [mergeFold_preserve _ _ _ _ hfact]
    exact hN
  · intro hk
    obtain ⟨q, hq, hqk⟩ := List.mem_map.mp hk
    unfold pruneKeys at hq
    have hc := (List.mem_filter.mp hq).2
    rw [← hqk]
    simpa using hc
  · intro hk
    obtain ⟨q, hq, hqk⟩ := List.mem_map.mp hk
    unfold pruneKeys at hq
    have hc := (List.mem_filter.mp hq).2
    rw [← hqk]
    simpa using hc

def C1wNew : ReportJ :=
  ⟨[("a.jpg", Json.obj [("iso", Json.str "100")]), ("new.jpg", Json.str "fresh")],
   [("a_t.jpg", Json.str "pnew")]⟩

def C1wOld : ReportJ := ⟨[("a.jpg", Json.obj [("iso", Json.str "200")])], []⟩

/-- C1 (witness for the amended theorem): the overlapping key takes
`deepmerge({iso:"100"}, {iso:"200"})`, the existing report's value; the
key only the new run has keeps its fresh value, in the `processed`
section too. -/
theorem C1_merge_existing_precedence_witness :
    (∃ m, topObj (reconcile C1wNew (some C1wOld)).1 "original" = some m ∧
      lookupA m "a.jpg" =
        some (mergeEntry (Json.obj [("iso", Json.str "100")])
          (Json.obj [("iso", Json.str "200")])) ∧
      (isMergeableJ (Json.obj [("iso", Json.str "200")]) = false →
        mergeEntry (Json.obj [("iso", Json.str "100")]) (Json.obj [("iso", Json.str "200")]) =
          Json.obj [("iso", Json.str "200")])) ∧
    (∃ m, topObj (reconcile C1wNew (some C1wOld)).1 "original" = some m ∧
      lookupA m "new.jpg" = some (Json.str "fresh")) ∧
    (∃ m, topObj (reconcile C1wNew (some C1wOld)).1 "processed" = some m ∧
      lookupA m "a_t.jpg" = some (Json.str "pnew")) :=
  ⟨(C1_merge_existing_precedence C1wNew C1wOld "a.jpg").1 _ _ (by rfl) (by rfl) (by decide),
   (C1_merge_existing_precedence C1wNew C1wOld "new.jpg").2.1 _ (by rfl) (by rfl),
   (C1_merge_existing_precedence C1wNew C1wOld "a_t.jpg").2.2.2.1 _ (by rfl) (by rfl)⟩

/-! ### Claim C3: planning -/

theorem stringDataInj {s t : String} (h : s.data = t.data) : s = t := by
  cases s
  cases t
  cases h
  rfl

theorem takeWhile_append_stop {p : Char → Bool} {l : List Char} (c : Char) (r : List Char)
    (hall : ∀ x ∈ l, p x = true) (hc : p c = false) :
    (l ++ c :: r).takeWhile p = l ∧ (l ++ c :: r).dropWhile p = c :: r := by
  induction l with
  | nil => simp [List.takeWhile_cons, List.dropWhile_cons, hc]
  | cons x xs ih =>
    have hx : p x = true := hall x (List.mem_cons_self x xs)
    have ihr := ih (fun y hy => hall y (List.mem_cons_of_mem x hy))
    simp [List.takeWhile_cons, List.dropWhile_cons, hx, ihr.1, ihr.2]

theorem lastSeg_mem {f : List String} (h : f ≠ []) : lastSeg f ∈ f := by
  induction f with
  | nil => exact absurd rfl h
  | cons a rest ih =>
    cases rest with
    | nil => simp [lastSeg]
    | cons b r =>
      exact List.mem_cons_of_mem a (ih (by simp))

theorem dropLast_append_lastSeg {f : List String} (h : f ≠ []) :
    f.dropLast ++ [lastSeg f] = f := by
  induction f with
  | nil => exact absurd rfl h
  | cons a rest ih =>
    cases rest with
    | nil => simp [lastSeg]
    | cons b r =>
      simp only [List.dropLast_cons₂, List.cons_append]
      rw [show lastSeg (a :: b :: r) = lastSeg (b :: r) from rfl, ih (by simp)]

/-- Splitting a name of shape `pre ++ "." ++ tail` (no dot in `tail`,
`pre` nonempty): the extension is `"." ++ tail`. -/
theorem splitExt_of_dot_suffix {n : String} {pre tail : List Char}
    (hpre : pre ≠ []) (htail : ∀ x ∈ tail, x ≠ '.')
    (h : n.data = pre ++ '.' :: tail) :
    (splitExtName n).1.data = pre ∧ (splitExtName n).2.data = '.' :: tail := by
  have hrev : n.data.reverse = tail.reverse ++ '.' :: pre.reverse := by
    rw [h]
    simp
  have hstop := takeWhile_append_stop (p := fun c => decide (c ≠ '.')) '.' pre.reverse
    (fun x hx => by
      have := htail x (List.mem_reverse.mp hx)
      simpa using this)
    (by simp)
  unfold splitExtName
  rw [hrev, hstop.1, hstop.2]
  cases hpr : pre.reverse with
  | nil => exact absurd (by simpa using congrArg List.reverse hpr) hpre
  | cons x xs =>
    constructor
    · show (x :: xs).reverse = pre
      rw [← hpr]
      exact List.reverse_reverse pre
    · simp

/-- The extension data lists produced by the image glob. -/
def imgExtDatas : List (List Char) :=
  [['.', 'j', 'p', 'g'], ['.', 'j', 'p', 'e', 'g'], ['.', 'p', 'n', 'g']]

/-- An image path's filename splits into a stem and one of the three
image extensions, and the split reconstructs the filename. -/
theorem isImagePath_ext {f : List String} (h : isImagePath f = true) :
    f ≠ [] ∧
    (splitExtName (lastSeg f)).1.data ++ (splitExtName (lastSeg f)).2.data = (lastSeg f).data ∧
    (splitExtName (lastSeg f)).2.data ∈ imgExtDatas := by
  unfold isImagePath at h
  simp only [Bool.and_eq_true] at h
  obtain ⟨⟨hne, hall⟩, hany⟩ := h
  have hfne : f ≠ [] := by
    intro hc
    rw [hc] at hne
    cases hne
  have hhead : ∀ c rest, (lastSeg f).data = c :: rest → c ≠ '.' := by
    intro c rest hcr hc
    have hmem := lastSeg_mem hfne
    have := List.all_eq_true.mp hall _ hmem
    rw [hcr] at this
    rw [hc] at this
    simp at this
  simp only [List.any_eq_true] at hany
  obtain ⟨e, he, hsuf⟩ := hany
  have hsuffix : (("." ++ e).data) <:+ (lastSeg f).data := List.isSuffixOf_iff_suffix.mp hsuf
  obtain ⟨pre, hpre⟩ := hsuffix
  have hkey : ∀ tail : List Char, (∀ x ∈ tail, x ≠ '.') → tail ≠ [] →
      ("." ++ e).data = '.' :: tail →
      (splitExtName (lastSeg f)).1.data ++ (splitExtName (lastSeg f)).2.data =
          (lastSeg f).data ∧
        (splitExtName (lastSeg f)).2.data = '.' :: tail := by
    intro tail htail htne hde
    have hdata : (lastSeg f).data = pre ++ '.' :: tail := by
      rw [← hpre, hde]
    have hprene : pre ≠ [] := by
      intro hc
      rw [hc] at hdata
      simp only [List.nil_append] at hdata
      exact hhead '.' tail hdata rfl
    obtain ⟨h1, h2⟩ := splitExt_of_dot_suffix hprene htail hdata
    rw [h1, h2, hdata]
    exact ⟨rfl, rfl⟩
  refine ⟨hfne, ?_⟩
  simp only [imgExtensions, List.mem_cons, List.not_mem_nil, or_false] at he
  rcases he with rfl | rfl | rfl
  · obtain ⟨ha, hb⟩ := hkey ['j', 'p', 'g'] (by decide) (by decide) (by rfl)
    exact ⟨ha, by rw [hb]; simp [imgExtDatas]⟩
  · obtain ⟨ha, hb⟩ := hkey ['j', 'p', 'e', 'g'] (by decide) (by decide) (by rfl)
    exact ⟨ha, by rw [hb]; simp [imgExtDatas]⟩
  · obtain ⟨ha, hb⟩ := hkey ['p', 'n', 'g'] (by decide) (by decide) (by rfl)
    exact ⟨ha, by rw [hb]; simp [imgExtDatas]⟩

/-- Two of the glob's extensions glued after arbitrary prefixes can
only produce the same string if they are the same extension. -/
theorem ext_suffix_unique {a b e₁ e₂ : List Char}
    (h₁ : e₁ ∈ imgExtDatas) (h₂ : e₂ ∈ imgExtDatas) (heq : a ++ e₁ = b ++ e₂) :
    e₁ = e₂ ∧ a = b := by
  have hs₁ : e₁ <:+ a ++ e₁ := List.suffix_append a e₁
  have hs₂ : e₂ <:+ a ++ e₁ := heq ▸ List.suffix_append b e₂
  have hcomp := List.suffix_or_suffix_of_suffix hs₁ hs₂
  simp only [imgExtDatas, List.mem_cons, List.not_mem_nil, or_false] at h₁ h₂
  have hee : e₁ = e₂ := by
    rcases h₁ with rfl | rfl | rfl <;> rcases h₂ with rfl | rfl | rfl <;>
      first
        | rfl
        | (rcases hcomp with hc | hc <;> exact absurd hc (by decide))
  exact ⟨hee, by rw [hee] at heq; exact List.append_cancel_right heq⟩

theorem length_flatMap_map {α β γ : Type} (l : List α) (ts : List β) (g : α → β → γ) :
    (l.flatMap (fun f => ts.map (g f))).length = l.length * ts.length := by
  induction l with
  | nil => simp
  | cons x xs ih => simp [ih, Nat.succ_mul, Nat.add_comm]

/-- C3 (counterexample).  The claim asserts pairwise-distinct output
paths across distinct files or distinct targets.  With input files
`a.jpg`, `a_b.jpg` and targets named `b_t` and `t` (legal names: `\w+`
admits underscores), the planned jobs `(a.jpg, b_t)` and `(a_b.jpg, t)`
— distinct files AND distinct targets — both compute the output path
`out/a_b_t.jpg`. -/
theorem C3_counterexample :
    planJobs "in" ["out"] [["a.jpg"], ["a_b.jpg"]]
        [⟨"b_t", 1, none, none⟩, ⟨"t", 1, none, none⟩] =
      .ok [⟨["a.jpg"], ["out", "a_b_t.jpg"], ⟨"b_t", 1, none, none⟩⟩,
           ⟨["a.jpg"], ["out", "a_t.jpg"], ⟨"t", 1, none, none⟩⟩,
           ⟨["a_b.jpg"], ["out", "a_b_b_t.jpg"], ⟨"b_t", 1, none, none⟩⟩,
           ⟨["a_b.jpg"], ["out", "a_b_t.jpg"], ⟨"t", 1, none, none⟩⟩] ∧
    (["a.jpg"] : List String) ≠ ["a_b.jpg"] ∧
    (⟨"b_t", 1, none, none⟩ : TargetM) ≠ ⟨"t", 1, none, none⟩ := by
  refine ⟨by rfl, by decide, by decide⟩

/-- C3 (amended).  An empty filtered input set fails the run with the
"no images found" error before any job exists; otherwise exactly one
job per (file, target) pair is planned (`n * m` jobs), and output paths
are distinct between two jobs sharing the input file whose target NAMES
differ, and between two jobs sharing the target whose input files
differ.  (Full pairwise distinctness across jobs differing in both
coordinates fails, see the counterexample.) -/
theorem C3_planning (inDir : String) (outDir : List String) (entries : List (List String))
    (targets : List TargetM) :
    (entries.filter isImagePath = [] →
      planJobs inDir outDir entries targets =
        .error ("No images found in `" ++ inDir ++ "`")) ∧
    (∀ J, planJobs inDir outDir entries targets = .ok J →
      J.length = (entries.filter isImagePath).length * targets.length ∧
      (∀ j₁ ∈ J, ∀ j₂ ∈ J,
        (j₁.inPath = j₂.inPath → j₁.target.name ≠ j₂.target.name → j₁.outPath ≠ j₂.outPath) ∧
        (j₁.target = j₂.target → j₁.inPath ≠ j₂.inPath → j₁.outPath ≠ j₂.outPath))) := by
  constructor
  · intro h
    unfold planJobs
    rw [h]
  · intro J hok
    unfold planJobs at hok
    cases hfil : entries.filter isImagePath with
    | nil => rw [hfil] at hok; cases hok
    | cons f0 frest =>
      rw [hfil] at hok
      cases hok
      constructor
      · rw [← hfil]
        exact length_flatMap_map _ _ _
      · intro j₁ hj₁ j₂ hj₂
        rw [← hfil] at hj₁ hj₂
        obtain ⟨f₁, hf₁, hm₁⟩ := List.mem_flatMap.mp hj₁
        obtain ⟨t₁, ht₁, hjt₁⟩ := List.mem_map.mp hm₁
        obtain ⟨f₂, hf₂, hm₂⟩ := List.mem_flatMap.mp hj₂
        obtain ⟨t₂, ht₂, hjt₂⟩ := List.mem_map.mp hm₂
        obtain ⟨hif₁, hrec₁, hext₁⟩ := isImagePath_ext (List.mem_filter.mp hf₁).2
        obtain ⟨hif₂, hrec₂, hext₂⟩ := isImagePath_ext (List.mem_filter.mp hf₂).2
        rw [← hjt₁, ← hjt₂]
        dsimp only
        constructor
        · -- same file, different target names
          intro hfe hne hout
          apply hne
          unfold outPathFor at hout
          simp only [List.append_assoc] at hout
          rw [hfe] at hout
          have h2 := List.append_cancel_left hout
          have h3 := List.append_cancel_left h2
          have hN : (splitExtName (lastSeg f₂)).1 ++ "_" ++ t₁.name ++
              (splitExtName (lastSeg f₂)).2 =
              (splitExtName (lastSeg f₂)).1 ++ "_" ++ t₂.name ++
              (splitExtName (lastSeg f₂)).2 := by
            injection h3
          have hdata := congrArg String.data hN
          simp only [String.data_append] at hdata
          have h5 := List.append_cancel_right hdata
          have h6 := List.append_cancel_left h5
          exact stringDataInj h6
        · -- same target, different files
          intro hte hne hout
          apply hne
          unfold outPathFor at hout
          simp only [List.append_assoc] at hout
          have h2 := List.append_cancel_left hout
          have h3 := List.append_inj' h2 rfl
          have hN : (splitExtName (lastSeg f₁)).1 ++ "_" ++ t₁.name ++
              (splitExtName (lastSeg f₁)).2 =
              (splitExtName (lastSeg f₂)).1 ++ "_" ++ t₂.name ++
              (splitExtName (lastSeg f₂)).2 := by
            injection h3.2
          have hdata := congrArg String.data hN
          simp only [String.data_append] at hdata
          rw [hte] at hdata
          obtain ⟨hee, haa⟩ := ext_suffix_unique hext₁ hext₂ hdata
          have hss := List.append_cancel_right (List.append_cancel_right haa)
          have hlast : lastSeg f₁ = lastSeg f₂ := by
            apply stringDataInj
            rw [← hrec₁, ← hrec₂, hss, hee]
          rw [← dropLast_append_lastSeg hif₁, ← dropLast_append_lastSeg hif₂, h3.1, hlast]

/-- C3 (witness for the amended theorem): no-image failure on one
input; two JPEGs x two targets give four jobs with the same-target
paths distinct. -/
theorem C3_planning_witness :
    planJobs "in" ["out"] [["doc.txt"]] [⟨"thumb", 2, some 100, some 100⟩] =
      .error ("No images found in `" ++ "in" ++ "`") ∧
    ∃ J, planJobs "in" ["out"] [["a.jpg"], ["b.jpg"]]
        [⟨"thumb", 2, some 100, some 100⟩, ⟨"full", 1, none, none⟩] = .ok J ∧
      J.length = 2 * 2 ∧
      ∀ j₁ ∈ J, ∀ j₂ ∈ J, j₁.target = j₂.target → j₁.inPath ≠ j₂.inPath →
        j₁.outPath ≠ j₂.outPath := by
  refine ⟨(C3_planning "in" ["out"] [["doc.txt"]] [⟨"thumb", 2, some 100, some 100⟩]).1 rfl, ?_⟩
  obtain ⟨hlen, hdist⟩ := (C3_planning "in" ["out"] [["a.jpg"], ["b.jpg"]]
    [⟨"thumb", 2, some 100, some 100⟩, ⟨"full", 1, none, none⟩]).2 _ rfl
  exact ⟨_, rfl, hlen, fun j₁ h₁ j₂ h₂ ht hf => (hdist j₁ h₁ j₂ h₂).2 ht hf⟩

/-! ### Claims C4 and C9: job execution -/

/-- Inversion of the result construction shared by both branches of
`processOne`. -/
theorem finishJob_inv {tools : Tools} {job : JobM} {skipped : Bool} {fs : FS}
    {effs : List Eff} {res : ProcessResultM} {fs' : FS} {tr : List Eff}
    (h : finishJob tools job skipped fs effs = .ok (res, fs', tr)) :
    res.skipped = skipped ∧ fs' = fs ∧
    ∃ inB outB, statSize fs job.inPath = some inB ∧ statSize fs job.outPath = some outB ∧
      res.ratio = mkRat outB inB := by
  unfold finishJob at h
  split at h
  · cases h
  · rename_i inB hinB
    split at h
    · cases h
    · rename_i outB houtB
      cases h
      exact ⟨rfl, rfl, inB, outB, hinB, houtB, rfl⟩

/-- Inversion of the non-skipped branch: the result is not skipped and
its ratio comes from the post-processing stats. -/
theorem processBody_inv {tools : Tools} {job : JobM} {fs : FS} {checkEffs : List Eff}
    {res : ProcessResultM} {fs' : FS} {tr : List Eff}
    (h : processBody tools job fs checkEffs = .ok (res, fs', tr)) :
    res.skipped = false ∧
    ∃ inB outB, statSize fs' job.inPath = some inB ∧ statSize fs' job.outPath = some outB ∧
      res.ratio = mkRat outB inB := by
  unfold processBody at h
  cases hmg : magickStage tools job fs with
  | error e => rw [hmg] at h; cases h
  | ok stage =>
    obtain ⟨toCompress, fs1, magickEffs⟩ := stage
    rw [hmg] at h
    dsimp only at h
    cases hc : tools.cjpegli job.target.quality job.chromaSubsampling job.progressive
        toCompress job.outPath fs1 with
    | error e => rw [hc] at h; cases h
    | ok fs2 =>
      rw [hc] at h
      dsimp only at h
      cases het : exiftoolStage tools job fs2 with
      | error e => rw [het] at h; cases h
      | ok stage3 =>
        obtain ⟨fs3, etEff⟩ := stage3
        rw [het] at h
        dsimp only at h
        obtain ⟨hsk, hfs, hstats⟩ := finishJob_inv h
        rw [← hfs] at hstats
        exact ⟨hsk, hstats⟩

/-- C4 (confirmed).  A successful `processOne` reports
`skipped = true` exactly when an output file already existed and
`reprocessExisting` is false; and in every case — skipped included —
the compression ratio is output bytes over input bytes, statted on the
filesystem as it stands AFTER the (possibly skipped) processing step. -/
theorem C4_skip_and_ratio (tools : Tools) (re : Bool) (job : JobM) (fs : FS)
    (res : ProcessResultM) (fs' : FS) (tr : List Eff)
    (h : processOne tools re job fs = .ok (res, fs', tr)) :
    (res.skipped = true ↔ ((lookupA fs job.outPath).isSome = true ∧ re = false)) ∧
    ∃ inB outB, statSize fs' job.inPath = some inB ∧ statSize fs' job.outPath = some outB ∧
      res.ratio = mkRat outB inB := by
  unfold processOne at h
  cases re with
  | true =>
    rw [if_pos rfl] at h
    obtain ⟨hsk, hstats⟩ := processBody_inv h
    refine ⟨?_, hstats⟩
    rw [hsk]
    simp
  | false =>
    rw [if_neg (by simp)] at h
    by_cases hex : (lookupA fs job.outPath).isSome = true
    · rw [if_pos hex] at h
      obtain ⟨hsk, hfs, hstats⟩ := finishJob_inv h
      rw [hfs]
      refine ⟨?_, hstats⟩
      rw [hsk]
      simp [hex]
    · rw [if_neg hex] at h
      obtain ⟨hsk, hstats⟩ := processBody_inv h
      refine ⟨?_, hstats⟩
      rw [hsk]
      simp [hex]

/-- C9 (confirmed).  A job taking the skipped branch (output exists,
`reprocessExisting` false) produces exactly three read effects — the
existence check and the two size stats — with no tool invocation, no
directory creation and no write, and returns the filesystem unchanged. -/
theorem C9_skip_frame (tools : Tools) (job : JobM) (fs : FS)
    (fin fout : FileC)
    (hinf : lookupA fs job.inPath = some fin)
    (houtf : lookupA fs job.outPath = some fout) :
    processOne tools false job fs =
      .ok ({ inPath := job.inPath, outPath := job.outPath,
             outSize := tools.prettyBytes fout.bytes.length,
             ratio := mkRat fout.bytes.length fin.bytes.length,
             skipped := true, target := job.target.name },
           fs,
           [Eff.checkExists job.outPath, Eff.statFile job.inPath,
            Eff.statFile job.outPath]) := by
  unfold processOne
  rw [houtf]
  simp only [Bool.false_eq_true, if_false, Option.isSome_some, Bool.not_true, if_false]
  unfold finishJob
  unfold statSize
  rw [hinf, houtf]
  rfl

def C9tools : Tools :=
  ⟨fun _ _ _ fs => .ok fs, fun _ _ _ _ _ fs => .ok fs, fun _ _ fs => .ok fs,
   fun _ fs => .ok fs, "/tmp/resized", fun n => toString n⟩

def C9fs : FS := [("in/a.jpg", ⟨[7, 7, 7]⟩), ("out/a_t.jpg", ⟨[9]⟩)]

def C9job : JobM :=
  ⟨"420", "in/a.jpg", "out/a_t.jpg", false, "2", ⟨"t", 1, none, none⟩⟩

/-- C9 (witness): a concrete skipped job touches nothing. -/
theorem C9_skip_frame_witness :
    processOne C9tools false C9job C9fs =
      .ok ({ inPath := "in/a.jpg", outPath := "out/a_t.jpg",
             outSize := C9tools.prettyBytes 1, ratio := mkRat 1 3,
             skipped := true, target := "t" },
           C9fs,
           [Eff.checkExists "out/a_t.jpg", Eff.statFile "in/a.jpg",
            Eff.statFile "out/a_t.jpg"]) :=
  C9_skip_frame C9tools C9job C9fs ⟨[7, 7, 7]⟩ ⟨[9]⟩ (by rfl) (by rfl)

/-- C4 (witness): the skipped case of the same concrete job satisfies
the skip/ratio contract. -/
theorem C4_skip_and_ratio_witness :
    ((⟨"in/a.jpg", "out/a_t.jpg", C9tools.prettyBytes 1, mkRat 1 3, true, "t"⟩ :
        ProcessResultM).skipped = true ↔
      ((lookupA C9fs C9job.outPath).isSome = true ∧ false = false)) ∧
    ∃ inB outB, statSize C9fs C9job.inPath = some inB ∧
      statSize C9fs C9job.outPath = some outB ∧
      (⟨"in/a.jpg", "out/a_t.jpg", C9tools.prettyBytes 1, mkRat 1 3, true, "t"⟩ :
        ProcessResultM).ratio = mkRat outB inB :=
  C4_skip_and_ratio C9tools false C9job C9fs _ _ _ (by rfl)

end Imgpipel
